import Mathlib

/-!
Shallow embedding of `IDAMetrics_static.py` (IDAmetrics, static software
complexity metrics for binaries) and verification of its specification claims.

Modelling conventions:
* Addresses are `Nat`.  The Python code renders addresses with `hex(...)` and
  parses them back with `int(..., 16)`; since that round trip is the identity
  on the address value and `hex` is injective, block lists, usage lists and
  edge sets are modelled directly over `Nat`.
* Python `dict`s (insertion ordered) are association lists with unique keys,
  `set`s are duplicate-free lists built with a membership-guarded insert.
* The host (IDA) primitives consumed by the script — disassembly, flags,
  cross references, chunk lists — are a record of functions `Env`, mirroring
  the external-collaborator contract of the spec.
* Floating point transcendentals (`math.log`, `**(2/3)`, `sqrt`) are abstract
  functions in `Env` over `ℚ`; only their domain errors (log of a
  non-positive argument) are modelled concretely, which is what the claims
  about them concern.
* Python exceptions are `Option String` error components; a routine's state
  mutated before a raise is kept (partial-state semantics), as in Python.
-/

namespace IDAMetrics

/-- `idaapi.BADADDR` for the 64-bit case (`__EA64__`); the script compares
addresses against it. -/
def BADADDR : Nat := 0xFFFFFFFFFFFFFFFF

/-- `ARGUMENT_SIZE` for the `__EA64__` case (8 bytes). -/
def ARGUMENT_SIZE : Int := 8

/-- Instruction classification `inType` from the script. -/
inductive InType where
  | OTHERS
  | CALL
  | CONDITIONAL_BRANCH
  | UNCONDITIONAL_BRACH
  | ASSIGNMENT
  | COMPARE
deriving DecidableEq, Repr

/-- IDA operand type `idc.o_reg`. -/
def o_reg : Int := 1
/-- IDA operand type `idc.o_mem`. -/
def o_mem : Int := 2
/-- IDA operand type `idc.o_phrase`. -/
def o_phrase : Int := 3
/-- IDA operand type `idc.o_displ`. -/
def o_displ : Int := 4
/-- IDA operand type `idc.o_imm`. -/
def o_imm : Int := 5
/-- IDA operand type `idc.o_far`. -/
def o_far : Int := 6
/-- IDA operand type `idc.o_near`. -/
def o_near : Int := 7

section PyHelpers

variable {κ : Type} {α : Type} [DecidableEq κ]

/-- Python `d.get(k)` on an insertion-ordered dict modelled as an
association list. -/
def dget (d : List (κ × α)) (k : κ) : Option α :=
  (d.find? (fun p => p.1 = k)).map (fun p => p.2)

/-- Python `d[k] = v`: replace in place when the key exists, else append. -/
def dset (d : List (κ × α)) (k : κ) (v : α) : List (κ × α) :=
  if (dget d k).isSome then
    d.map (fun p => if p.1 = k then (k, v) else p)
  else d ++ [(k, v)]

/-- Python `d[k] = d.get(k, 0) + 1`. -/
def dincr (d : List (κ × Nat)) (k : κ) : List (κ × Nat) :=
  dset d k (((dget d k).getD 0) + 1)

/-- Python `d.setdefault(k, []).append(v)`. -/
def dappend (d : List (κ × List α)) (k : κ) (v : α) : List (κ × List α) :=
  dset d k (((dget d k).getD []) ++ [v])

/-- Python `if k in d: del d[k]` (the script always guards its deletes). -/
def ddel (d : List (κ × α)) (k : κ) : List (κ × α) :=
  if (dget d k).isSome then d.filter (fun p => ¬ p.1 = k) else d

/-- The keys of a dict, in insertion order. -/
def dkeys (d : List (κ × α)) : List κ := d.map (fun p => p.1)

/-- Python set `s.add(a)` on a duplicate-free list. -/
def sadd [DecidableEq α] (s : List α) (a : α) : List α :=
  if a ∈ s then s else s ++ [a]

end PyHelpers

/-- Substring occurrence at some position. -/
def listInfix (pat s : List Char) : Bool :=
  (List.range (s.length + 1)).any (fun i => pat.isPrefixOf (s.drop i))

/-- Python substring test `pat in s`. -/
def pyIn (pat s : String) : Bool := listInfix pat.toList s.toList

/-- Python `s.startswith(pre)`. -/
def pyStartsWith (s pre : String) : Bool := pre.toList.isPrefixOf s.toList

/-- The fuel-counted replacement loop behind `replaceChars`: every call
consumes at least one character of the input (a nonempty matched pattern, or
the scanned head), so any fuel of at least the input's length computes the
full left-to-right non-overlapping replacement and the fuel-out branch is
never reached from `replaceChars`. -/
def replaceCharsF (pat rep : List Char) : Nat → List Char → List Char
  | _, [] => []
  | 0, l => l
  | fuel + 1, c :: rest =>
    if pat.isPrefixOf (c :: rest) ∧ pat ≠ [] then
      rep ++ replaceCharsF pat rep fuel ((c :: rest).drop pat.length)
    else c :: replaceCharsF pat rep fuel rest

/-- Replace every occurrence of a nonempty pattern, left to right and
non-overlapping, as Python `str.replace` does. -/
def replaceChars (pat rep : List Char) (l : List Char) : List Char :=
  replaceCharsF pat rep l.length l

/-- Python `s.replace(pat, rep)` (the script only replaces nonempty
patterns; an empty pattern is returned unchanged here). -/
def pyReplace (s pat rep : String) : String :=
  if pat.toList = [] then s
  else String.mk (replaceChars pat.toList rep.toList s.toList)

/-- Python `==` between an `int` and a 2-tuple: values of different types are
never equal, so this is constantly `false`.  `get_bbls` evaluates
`head in edges` where `edges` holds `(from, to)` pairs and `head` is an
integer address, so that membership test never succeeds. -/
def pyEqIntPair (_h : Nat) (_e : Nat × Nat) : Bool := false

/-- Python `head in edges` for an integer `head` and a set of pairs. -/
def pyIntMemPairs (h : Nat) (s : List (Nat × Nat)) : Bool :=
  s.any (fun e => pyEqIntPair h e)

/-- Python `s.find(pat)`: index of the first occurrence, `-1` when absent
(`""` is found at index 0). -/
def pyFind (s pat : String) : Int :=
  match (List.range (s.toList.length + 1)).find?
      (fun i => pat.toList.isPrefixOf (s.toList.drop i)) with
  | some i => (i : Int)
  | none => -1

/-- Python `s.rfind(pat)`: index of the last occurrence, `-1` when absent. -/
def pyRFind (s pat : String) : Int :=
  match ((List.range (s.toList.length + 1)).reverse).find?
      (fun i => pat.toList.isPrefixOf (s.toList.drop i)) with
  | some i => (i : Int)
  | none => -1

/-- Normalise a Python slice index: negative indices count from the end,
then clamp into `[0, len]`. -/
def pyIndex (len : Nat) (i : Int) : Nat :=
  if i < 0 then ((len : Int) + i).toNat else min i.toNat len

/-- Python slice `s[a:b]`. -/
def pySlice (s : String) (a b : Int) : String :=
  let cs := s.toList
  let lo := pyIndex cs.length a
  let hi := pyIndex cs.length b
  String.mk ((cs.drop lo).take (hi - lo))

/-- One hexadecimal digit, as accepted by Python `int(_, 16)`. -/
def hexDigit? (c : Char) : Option Nat :=
  if '0' ≤ c ∧ c ≤ '9' then some (c.toNat - '0'.toNat)
  else if 'a' ≤ c ∧ c ≤ 'f' then some (c.toNat - 'a'.toNat + 10)
  else if 'A' ≤ c ∧ c ≤ 'F' then some (c.toNat - 'A'.toNat + 10)
  else none

/-- Python `int(s, 16)`: surrounding whitespace stripped, optional sign and
`0x` prefix, at least one hex digit, `ValueError` otherwise. -/
def pyIntHex (s : String) : Except String Int :=
  let t := ((s.toList.dropWhile Char.isWhitespace).reverse.dropWhile
    Char.isWhitespace).reverse
  let st : Int × List Char :=
    match t with
    | '-' :: r => (-1, r)
    | '+' :: r => (1, r)
    | _ => (1, t)
  let t := if ['0', 'x'].isPrefixOf st.2 ∨ ['0', 'X'].isPrefixOf st.2 then
    st.2.drop 2 else st.2
  match t.mapM hexDigit? with
  | some (d :: ds) =>
    .ok (st.1 * ((ds.foldl (fun acc x => 16 * acc + x) d : Nat) : Int))
  | _ => .error "ValueError: invalid literal for int with base 16"

/-- Decidable equality for `Except` results (used to state concrete
evaluations of the fallible functions). -/
instance {ε α : Type} [DecidableEq ε] [DecidableEq α] :
    DecidableEq (Except ε α) := fun x y =>
  match x, y with
  | .error a, .error b =>
    if h : a = b then .isTrue (by rw [h])
    else .isFalse (by intro hc; injection hc; contradiction)
  | .error _, .ok _ => .isFalse (by intro hc; injection hc)
  | .ok _, .error _ => .isFalse (by intro hc; injection hc)
  | .ok a, .ok b =>
    if h : a = b then .isTrue (by rw [h])
    else .isFalse (by intro hc; injection hc; contradiction)

/-- The host-analysis environment: the IDA primitives the script consumes.
Addresses are `Nat`; each field mirrors one host function used by the code. -/
structure Env where
  /-- `is_code(ida_bytes.get_full_flags(a))` -/
  isCode : Nat → Bool
  /-- `is_flow(ida_bytes.get_full_flags(a))` -/
  isFlow : Nat → Bool
  /-- `idautils.CodeRefsFrom(a, 0)` -/
  codeRefsFrom : Nat → List Nat
  /-- `idautils.CodeRefsTo(a, 0)` -/
  codeRefsTo : Nat → List Nat
  /-- `idc.next_head(a, limit)` -/
  nextHead : Nat → Nat → Nat
  /-- `idc.prev_head(a, limit)` -/
  prevHead : Nat → Nat → Nat
  /-- `idc.print_insn_mnem(a)` -/
  printInsnMnem : Nat → String
  /-- `idc.print_operand(a, i)` -/
  printOperand : Nat → Nat → String
  /-- `idc.get_operand_type(a, i)` -/
  operandType : Nat → Nat → Int
  /-- `get_operand_value(a, i)` -/
  operandValue : Nat → Nat → Int
  /-- `ida_idp.is_call_insn` at the given address -/
  isCallInsn : Nat → Bool
  /-- `ida_idp.has_insn_feature(itype, CF_CHG)` of the instruction there -/
  hasChg : Nat → Bool
  /-- `ida_idp.has_insn_feature(itype, CF_USE)` of the instruction there -/
  hasUse : Nat → Bool
  /-- `idautils.Heads(start, end)` -/
  heads : Nat → Nat → List Nat
  /-- `len(list(idautils.DataRefsTo(v)))` -/
  dataRefsToCount : Int → Nat
  /-- `ida_nalt.get_switch_info(a)`, as `(startea, ncases)` when present -/
  switchInfo : Nat → Option (Nat × Nat)
  /-- `idc.GetDisasm(a)` -/
  getDisasm : Nat → String
  /-- `idc.find_func_end(a)` -/
  findFuncEnd : Nat → Nat
  /-- chunk list of a routine, as produced by `enumerate_function_chunks`
  (a thin loop over `first_func_chunk` / `next_func_chunk` /
  `get_fchunk_attr(_, FUNCATTR_END)`) -/
  funcChunks : Nat → List (Nat × Nat)
  /-- `idc.get_func_name(a)` -/
  funcName : Nat → String
  /-- the sequence of function entry addresses visited by the
  `Segments` / `get_next_func` enumeration in `Metrics.start_analysis` -/
  routines : List Nat
  /-- abstract value of `math.log(n, 2)` for positive `n` (only its domain
  error at 0 is modelled concretely) -/
  log2 : Nat → ℚ
  /-- abstract value of `math.sqrt` -/
  sqrtQ : ℚ → ℚ
  /-- abstract value of `x ** (2.0 / 3.0)` -/
  pow23 : ℚ → ℚ

/-- `math.log(x, 2)` on a nonnegative integer: raises a domain error exactly
when `x = 0`. -/
def pyLogNat (env : Env) (x : Nat) : Except String ℚ :=
  if x = 0 then .error "ValueError: math domain error" else .ok (env.log2 x)

/-- `Metrics_function.GetInstructionType`.  `function_start`/`function_end`
are the `self` fields set in `__init__` (entry address and
`find_func_end`). -/
def GetInstructionType (env : Env) (function_start function_end : Nat)
    (instr_addr : Nat) : InType :=
  if env.isCallInsn instr_addr then .CALL
  else
    let refs := (env.codeRefsFrom instr_addr).filter
      (fun a => function_start ≤ a && a ≤ function_end)
    if refs ≠ [] then
      let n_head := env.nextHead instr_addr function_end
      if env.isFlow n_head then .CONDITIONAL_BRANCH else .UNCONDITIONAL_BRACH
    else if env.hasChg instr_addr then .ASSIGNMENT
    else if env.hasUse instr_addr then .COMPARE
    else .OTHERS

/-- `Metrics_function.get_instr_operands`: the nonempty printed operands of
the first 6 slots, with their types. -/
def get_instr_operands (env : Env) (head : Nat) : List (String × Int) :=
  (List.range 6).filterMap (fun i =>
    let op := env.printOperand head i
    if op ≠ "" then some (op, env.operandType head i) else none)

/-- `Metrics_function.is_var_global`: an operand value is global when more
than one data reference targets it (`-1` is never global). -/
def is_var_global (env : Env) (operand : Int) (_head : Nat) : Bool :=
  if operand = -1 then false else env.dataRefsToCount operand > 1

/-- `Metrics_function.get_local_var_name`: recover a stack-variable name from
the printed operand text.  Note the source's `count("+") > 2` branches
assign the trimmed text to `operand`, not to `name`, so they return the
(falsy) empty string. -/
def get_local_var_name (operand0 : String) (_head : Nat) : Option String :=
  let operand := pyReplace operand0 " " ""
  if operand.toList.count '+' = 1 then
    some (pySlice operand (pyFind operand "+" + 1) (pyFind operand "]"))
  else if operand.toList.count '+' = 2 then
    some (pySlice operand (pyRFind operand "+" + 1) (pyFind operand "]"))
  else if operand.toList.count '+' > 2 then
    if pyIn "var_" operand then some ""
    else if pyIn "arg_" operand then some ""
    else none
  else none

/-- The `Halstead_metric` record; counts are integers, derived values are
(abstract) reals modelled over `ℚ`. -/
structure Hal where
  n1 : Nat := 0
  n2 : Nat := 0
  N1 : Nat := 0
  N2 : Nat := 0
  V : ℚ := 0
  Ni : ℚ := 0
  D : ℚ := 0
  E : ℚ := 0
  B : ℚ := 0
deriving DecidableEq, Repr

/-- `Halstead_metric.calculate`.  The `Ni` computation is inside a
`try/except` (on failure `Ni` keeps its previous value); the `V` computation
`N * math.log(n, 2)` is *not* guarded, so its domain error (when
`n1 + n2 = 0`) escapes the method; `D` is assigned only when `n2 ≠ 0`,
otherwise it keeps its previous value. -/
def Hal.calculate (env : Env) (h : Hal) : Hal × Option String :=
  let n := h.n1 + h.n2
  let N := h.N1 + h.N2
  let h :=
    match pyLogNat env h.n1, pyLogNat env h.n2 with
    | .ok a, .ok b => { h with Ni := (h.n1 : ℚ) * a + (h.n2 : ℚ) * b }
    | _, _ => h
  match pyLogNat env n with
  | .error e => (h, some e)
  | .ok l =>
    let h := { h with V := (N : ℚ) * l }
    let h :=
      if h.n2 ≠ 0 then
        { h with D := ((h.n1 : ℚ) / 2) * ((h.N2 : ℚ) / (h.n2 : ℚ)) }
      else h
    let h := { h with E := h.D * h.V }
    ({ h with B := env.pow23 h.E / 3000 }, none)

/-- State of a `Metrics_function` analysis: the `self` attributes mutated
during the instruction walk of `start_analysis`, together with the local
`edges`/`boundaries`/`mnemonics`/`operands`/switch accumulators and the
module-wide `global_vars_dict` (threaded explicitly as `gvars`). -/
structure BState where
  loc_count : Nat := 0
  condition_count : Nat := 0
  calls_count : Nat := 0
  assign_count : Nat := 0
  calls_dict : List (String × Nat) := []
  mnemonics : List (String × Nat) := []
  operands : List (String × Nat) := []
  switchea : List Nat := []
  cases_in_switches : Nat := 0
  vars_local : List (String × List Nat) := []
  global_vars_used : List (String × List Nat) := []
  global_vars_access : Nat := 0
  gvars : List (String × Nat) := []
  edges : List (Nat × Nat) := []
  boundaries : List Nat := []
deriving DecidableEq, Repr

/-- The instruction-type counter block of the walk (condition / call /
assignment tallies, plus the call-site key derivation; an unknown call
operand kind raises). -/
def headCounters (env : Env) (head : Nat) (instruction_type : InType)
    (st : BState) : BState × Option String :=
  if instruction_type = .CONDITIONAL_BRANCH then
    ({ st with condition_count := st.condition_count + 1 }, none)
  else if instruction_type = .CALL then
    let st := { st with calls_count := st.calls_count + 1 }
    let opnd_type := env.operandType head 0
    let opnd := env.operandValue head 0
    if opnd_type = o_reg then
      ({ st with calls_dict := dincr st.calls_dict ("reg_" ++ toString opnd) }, none)
    else if opnd_type = o_phrase then
      ({ st with calls_dict := dincr st.calls_dict ("phrase_" ++ toString opnd) }, none)
    else if opnd_type = o_displ then
      ({ st with calls_dict := dincr st.calls_dict ("displ_" ++ toString opnd) }, none)
    else if opnd_type = o_mem ∨ opnd_type = o_imm ∨ opnd_type = o_far ∨ opnd_type = o_near then
      ({ st with calls_dict := dincr st.calls_dict ("mem_" ++ toString opnd) }, none)
    else (st, some "Cthulhu has awakened")
  else if instruction_type = .ASSIGNMENT then
    ({ st with assign_count := st.assign_count + 1 }, none)
  else (st, none)

/-- One printed operand of a non-branch, non-call instruction: tally it and
classify it as a used global or a local/static variable. -/
def headOperand (env : Env) (head : Nat) (st : BState)
    (q : Nat × String × Int) : BState :=
  let idx := q.1
  let op := q.2.1
  let op_type := q.2.2
  let st := { st with operands := dincr st.operands op }
  if op_type = o_mem then
    if is_var_global env (env.operandValue head idx) head ∧ ¬ pyIn "__" op then
      { st with gvars := dset st.gvars op (((dget st.operands op).getD 0) + 1),
                global_vars_used := dappend st.global_vars_used op head,
                global_vars_access := st.global_vars_access + 1 }
    else if ¬ pyIn "__" op then
      { st with vars_local := dappend st.vars_local op head }
    else st
  else if op_type = o_phrase ∨ op_type = o_displ then
    match get_local_var_name op head with
    | some name =>
      if name ≠ "" then { st with vars_local := dappend st.vars_local name head }
      else st
    | none => st
  else st

/-- The mnemonic, switch-table and operand bookkeeping of the walk. -/
def headTables (env : Env) (head : Nat) (instruction_type : InType)
    (st : BState) : BState :=
  let st := { st with mnemonics := dincr st.mnemonics (env.printInsnMnem head) }
  let st :=
    match env.switchInfo head with
    | some p =>
      if p.1 ∉ st.switchea then
        { st with switchea := st.switchea ++ [p.1],
                  cases_in_switches := st.cases_in_switches + p.2 }
      else st
    | none => st
  if instruction_type ≠ .CONDITIONAL_BRANCH ∧ instruction_type ≠ .CALL then
    (get_instr_operands env head).enum.foldl (headOperand env head) st
  else st

/-- The edge/boundary block of the walk: add the fallthrough reference when
the next instruction is flow-reachable, extend the boundary set with every
kept reference, and add both the predecessor-anchored and the direct edge
for each reference. -/
def edgeStep (env : Env) (chunk : Nat × Nat) (head : Nat) (st : BState)
    (r : Nat) : BState :=
  let st :=
    if env.isFlow r then
      let prev_head := env.prevHead r chunk.1
      if prev_head = BADADDR then { st with edges := sadd st.edges (head, r) }
      else { st with edges := sadd st.edges (prev_head, r) }
    else st
  { st with edges := sadd st.edges (head, r) }

/-- The boundary update and edge loop for one instruction's kept
references. -/
def headRefs (env : Env) (chunk : Nat × Nat) (head : Nat) (refs0 : List Nat)
    (st : BState) : BState :=
  let next_head := env.nextHead head chunk.2
  let refs := if env.isFlow next_head then sadd refs0 next_head else refs0
  let st := { st with boundaries := refs.foldl sadd st.boundaries }
  refs.foldl (edgeStep env chunk head) st

/-- The per-instruction body of the walk in `Metrics_function.start_analysis`
(lines 206–312 of the source): classify the instruction, update counters,
mnemonic/operand tables, variable usage tables and the module-wide global
dict, then the edge and boundary sets.  Errors (`Invalid head`,
`Invalid reference`, the impossible call operand kind) surface as a `some`
message; state mutated before the raise is kept. -/
def processHead (env : Env) (fstart fend : Nat) (chunks : List (Nat × Nat))
    (chunk : Nat × Nat) (st : BState) (head : Nat) : BState × Option String :=
  if head = BADADDR then (st, some "Invalid head for parsing")
  else if ¬ env.isCode head then (st, none)
  else
    let st := { st with loc_count := st.loc_count + 1 }
    let refs0 := env.codeRefsFrom head
    if refs0.any (fun r => r = BADADDR) then (st, some "Invalid reference for head")
    else
      let refs := (refs0.filter (fun r => chunks.any (fun c => c.1 ≤ r && r < c.2))).dedup
      let instruction_type := GetInstructionType env fstart fend head
      match headCounters env head instruction_type st with
      | (st, some e) => (st, some e)
      | (st, none) =>
        let st := headTables env head instruction_type st
        if refs ≠ [] then (headRefs env chunk head refs st, none)
        else (st, none)

/-- Fold a fallible per-element step over a list, stopping at the first
error (the Python loop simply stops executing once an exception is raised). -/
def stopFold {σ α : Type} (f : σ → α → σ × Option String)
    (acc : σ × Option String) (xs : List α) : σ × Option String :=
  xs.foldl (fun acc x =>
    match acc.2 with
    | some _ => acc
    | none => f acc.1 x) acc

/-- The edge/boundary-building phase of `Metrics_function.start_analysis`:
walk every head of every chunk.  `gd` is the incoming module-wide
`global_vars_dict`. -/
def runBuilder (env : Env) (function_ea : Nat) (gd : List (String × Nat)) :
    BState × Option String :=
  let fstart := function_ea
  let fend := env.findFuncEnd function_ea
  let chunks := env.funcChunks function_ea
  let st0 : BState := { boundaries := [function_ea], gvars := gd }
  chunks.foldl (fun acc chunk =>
    match acc.2 with
    | some _ => acc
    | none => stopFold (processHead env fstart fend chunks chunk) acc
        (env.heads chunk.1 chunk.2)) (st0, none)

/-- One head of the `get_bbls` walk: start a new block at a boundary (or at a
member of the edge set, a test that never succeeds because it compares an
address with `(from, to)` pairs), close the block right after a conditional
branch, otherwise extend the current block. -/
def bblStep (env : Env) (fstart fend : Nat) (bd : List Nat)
    (ed : List (Nat × Nat)) (acc : List (List Nat) × List Nat) (head : Nat) :
    List (List Nat) × List Nat :=
  let (bbls, bbl) := acc
  if head ∈ bd ∨ pyIntMemPairs head ed then
    if bbl.length > 0 then (bbls ++ [bbl], [head]) else (bbls, [head])
  else if GetInstructionType env fstart fend head = .CONDITIONAL_BRANCH then
    (bbls ++ [bbl ++ [head]], [])
  else (bbls, bbl ++ [head])

/-- `Metrics_function.get_bbls`: partition the instruction stream of all
chunks into basic blocks; the open block carries over between chunks and is
flushed at the end. -/
def get_bbls (env : Env) (fstart fend : Nat) (chunks : List (Nat × Nat))
    (bd : List Nat) (ed : List (Nat × Nat)) : List (List Nat) :=
  let r := chunks.foldl (fun acc chunk =>
    (env.heads chunk.1 chunk.2).foldl (bblStep env fstart fend bd ed) acc)
    (([], []) : List (List Nat) × List Nat)
  if r.2.length > 0 then r.1 ++ [r.2] else r.1

/-- A node graph: block entry address ↦ successor list, `none` for a
terminal node (Python stores `None` there). -/
def NodeGraph : Type := List (Nat × Option (List Nat))

instance : DecidableEq NodeGraph := by
  unfold NodeGraph
  infer_instance

/-- `node_graph.get(node, None)` flattened: `none` for an absent key and for
a key stored with `None`. -/
def ngGet (ng : NodeGraph) (k : Nat) : Option (List Nat) :=
  match dget ng k with
  | some (some l) => some l
  | _ => none

/-- `Metrics_function.make_graph`: attribute each edge source to the entry
of the block containing it (sources that are not boundaries are looked up by
last-instruction index; unknown sources are skipped with a warning), add the
single root node for an edgeless single-boundary routine, then add every
block head still unmapped (or mapped to `None`) as a terminal node. -/
def make_graph (edges : List (Nat × Nat)) (bbls : List (List Nat))
    (boundaries : List Nat) : Except String NodeGraph := do
  let edges_dict : List (Nat × List Nat) ← edges.foldlM (fun d e =>
    if e.1 = BADADDR then Except.error "Invalid edge reference"
    else Except.ok (dappend d e.1 e.2)) []
  let bbls_dict : List (Nat × List Nat) ← bbls.foldlM (fun d bbl =>
    match bbl.getLast? with
    | none => Except.error "IndexError: list index out of range"
    | some l => Except.ok (dset d l bbl)) []
  let node_graph : NodeGraph ← edges_dict.foldlM (fun ng p =>
    let edge_from := p.1
    let node_edges_to := p.2
    if edge_from ∉ boundaries then
      match dget bbls_dict edge_from with
      | none => Except.ok ng
      | some bbl_edge_from =>
        match bbl_edge_from.head? with
        | none => Except.error "IndexError: list index out of range"
        | some h => Except.ok (dset ng h (some node_edges_to))
    else Except.ok (dset ng edge_from (some node_edges_to))) ([] : NodeGraph)
  let node_graph : NodeGraph ←
    if node_graph.length = 0 ∧ edges_dict.length = 0 ∧ boundaries.length = 1 then
      match boundaries with
      | b :: _ => Except.ok ([(b, none)] : NodeGraph)
      | [] => Except.ok node_graph
    else if node_graph.length = 0 ∧ edges_dict.length ≠ 0 then
      Except.error "Error when creating node graph"
    else Except.ok node_graph
  bbls.foldlM (fun ng bbl =>
    match bbl.head? with
    | none => Except.error "IndexError: list index out of range"
    | some h =>
      match dget ng h with
      | some (some _) => Except.ok ng
      | _ => Except.ok (dset ng h (none : Option (List Nat)))) node_graph

/-- `Metrics_function.get_subgraph_nodes_count`, in state-passing form: the
`nodes_passed` list is mutated in place in Python, hence shared across
sibling recursive calls; it is returned alongside the count here.  The
recursion consumes one unit of fuel per nested call; every nested call is on
a node not yet passed that is immediately appended, and only keys of the
graph recurse further, so any fuel above `ng.length + 1` is sufficient and
the function at `subFuel ng` equals the Python recursion. -/
def get_subgraph_nodes_count (ng : NodeGraph) :
    Nat → Nat → List Nat → Nat × List Nat
  | 0, _, nodes_passed => (0, nodes_passed)
  | fuel + 1, node, nodes_passed =>
    if node ∈ nodes_passed then (1, nodes_passed)
    else
      let nodes_passed := nodes_passed ++ [node]
      match ngGet ng node with
      | none => (0, nodes_passed)
      | some child_nodes =>
        child_nodes.foldl (fun acc child_node =>
          if child_node ∈ acc.2 then acc
          else
            let r := get_subgraph_nodes_count ng fuel child_node acc.2
            (acc.1 + r.1 + 1, r.2)) (0, nodes_passed)

/-- Sufficient fuel for `get_subgraph_nodes_count` and
`get_node_complexity` on a graph. -/
def subFuel (ng : NodeGraph) : Nat := ng.length + 2

/-- `Metrics_function.get_boundary_value_metric`: nodes stored with `None`
successors are skipped; branch nodes (`≥ 2` successors, or exactly `2` in
Pivovarsky mode) contribute their subgraph node count from a fresh
`nodes_passed` list, other non-terminal nodes contribute 1; in
boundary-value mode the total is decremented by one for the terminal node. -/
def get_boundary_value_metric (ng : NodeGraph) (pivovarsky : Bool) : Int :=
  let boundary_value : Int := ng.foldl (fun acc p =>
    match ngGet ng p.1 with
    | none => acc
    | some childs =>
      let out_edges_count := childs.length
      if pivovarsky then
        if out_edges_count = 2 then
          acc + ((get_subgraph_nodes_count ng (subFuel ng) p.1 []).1 : Int)
        else acc
      else
        if out_edges_count ≥ 2 then
          acc + ((get_subgraph_nodes_count ng (subFuel ng) p.1 []).1 : Int)
        else acc + 1) 0
  if ¬ pivovarsky then boundary_value - 1 else boundary_value

/-- `Metrics_function.get_node_complexity` (used by the Harrison metric):
like the subgraph count but summing the LOC of the blocks of newly reached
children; children without a known block are neither counted nor visited. -/
def get_node_complexity (ng : NodeGraph) (bbls_dict : List (Nat × List Nat)) :
    Nat → Nat → List Nat → Nat × List Nat
  | 0, _, nodes_passed => (0, nodes_passed)
  | fuel + 1, node, nodes_passed =>
    if node ∈ nodes_passed then (0, nodes_passed)
    else
      let nodes_passed := nodes_passed ++ [node]
      match ngGet ng node with
      | none => (0, nodes_passed)
      | some child_nodes =>
        child_nodes.foldl (fun acc child_node =>
          if child_node ∈ acc.2 then acc
          else
            match dget bbls_dict child_node with
            | none => acc
            | some bbls_node =>
              let r := get_node_complexity ng bbls_dict fuel child_node acc.2
              (acc.1 + bbls_node.length + r.1, r.2)) (0, nodes_passed)

/-- `Metrics_function.get_harrison_metric`: nodes that are not two-way
predicates contribute their own block's LOC; predicate nodes contribute
their reachable descendants' LOC (one-shot shared visited list) plus their
own block's LOC. -/
def get_harrison_metric (ng : NodeGraph) (bbls : List (List Nat)) : Int :=
  let bbls_dict : List (Nat × List Nat) := bbls.foldl (fun d bbl =>
    match bbl.head? with
    | none => d
    | some h => dset d h bbl) []
  ng.foldl (fun loc_measure p =>
    match ngGet ng p.1 with
    | none =>
      match dget bbls_dict p.1 with
      | some b => loc_measure + (b.length : Int)
      | none => loc_measure
    | some childs =>
      if childs.length ≠ 2 then
        match dget bbls_dict p.1 with
        | some b => loc_measure + (b.length : Int)
        | none => loc_measure
      else
        let c := (get_node_complexity ng bbls_dict (subFuel ng) p.1 []).1
        match dget bbls_dict p.1 with
        | some b => loc_measure + (c : Int) + (b.length : Int)
        | none => loc_measure + (c : Int)) 0

/-- `Metrics_function.is_operand_called`: scan the block for call or
conditional-branch instructions; the tuple-membership test
`op in instr_ops` compares a string with `(text, type)` pairs and never
succeeds, after which `op` is rebound with `ds:` stripped (the rebinding
persists across loop iterations) and searched for in the disassembly text. -/
def is_operand_called (env : Env) (fstart fend : Nat) (op0 : String)
    (bbl : List Nat) : Bool :=
  (bbl.foldl (fun acc instr =>
    match acc with
    | (true, _) => acc
    | (false, op) =>
      let instr_type := GetInstructionType env fstart fend instr
      if instr_type = .CALL ∨ instr_type = .CONDITIONAL_BRANCH then
        let op := pyReplace op "ds:" ""
        let comment := env.getDisasm instr
        if pyIn op comment then (true, op) else (false, op)
      else acc) ((false, op0) : Bool × String)).1

/-- `Metrics_function.get_span_metric`: count memory/phrase/displacement
operand occurrences of non-call, non-branch instructions that are not later
consumed by control-affecting code in the same block. -/
def get_span_metric (env : Env) (fstart fend : Nat)
    (bbls_dict : List (Nat × List Nat)) : Nat :=
  bbls_dict.foldl (fun span_metric p =>
    p.2.foldl (fun span_metric head =>
      let instr_op := get_instr_operands env head
      let instr_type := GetInstructionType env fstart fend head
      if instr_type = .CALL ∨ instr_type = .CONDITIONAL_BRANCH then span_metric
      else instr_op.foldl (fun span_metric o =>
        if is_operand_called env fstart fend o.1 p.2 then span_metric
        else if o_mem ≤ o.2 ∧ o.2 ≤ o_displ then span_metric + 1
        else span_metric) span_metric) span_metric) 0

/-- The primary scan of `Metrics_function.get_function_args_count`: collect
variables whose printed operand looks like an `ebp`-relative argument slot
(one `+` and a small offset) or a doubly indexed `arg` slot (two `+`). -/
def args_primary_scan (env : Env) (local_vars : List (String × List Nat)) :
    List (String × List Nat) :=
  local_vars.foldl (fun d q =>
    q.2.foldl (fun d head =>
      (get_instr_operands env head).enum.foldl (fun d r =>
        let idx := r.1
        let op := r.2.1
        if op.toList.count '+' = 1 then
          let value := env.operandValue head idx
          if value < 15 * ARGUMENT_SIZE ∧ pyIn "ebp" op then dappend d q.1 head
          else d
        else if op.toList.count '+' = 2 then
          if pyIn "arg" q.1 then dappend d q.1 head else d
        else d) d) d) []

/-- The cdecl fallback loop of `get_function_args_count`: look after each
call site for an `add esp, x` stack fixup.  `ops[1]` raises an `IndexError`
when the instruction has fewer than two printed operands. -/
def cdeclLoop (env : Env) (refs : List Nat)
    (args_dict : List (String × List Nat)) :
    Except String (ℚ × List (String × List Nat)) :=
  match refs with
  | [] => .ok (0, args_dict)
  | ref :: rest =>
    let head := env.nextHead ref BADADDR
    if head ≠ 0 then
      let disasm := env.getDisasm head
      if pyIn "add" disasm ∧ pyIn "esp," disasm then
        match get_instr_operands env head with
        | _ :: o :: _ =>
          if o.1 ≠ "" then
            match pyIntHex (pyReplace o.1 "h" "") with
            | .error e => .error e
            | .ok v => .ok ((v : ℚ) / (ARGUMENT_SIZE : ℚ), args_dict)
          else cdeclLoop env rest args_dict
        | _ => .error "IndexError: list index out of range"
      else cdeclLoop env rest args_dict
    else cdeclLoop env rest args_dict

/-- `Metrics_function.get_function_args_count`: the primary operand-shape
scan, then the stdcall `ret imm` heuristic, then the cdecl `add esp, x`
heuristic.  The fallback counts are Python true divisions, hence `ℚ`. -/
def get_function_args_count (env : Env) (function_ea : Nat)
    (local_vars : List (String × List Nat)) :
    Except String (ℚ × List (String × List Nat)) :=
  let args_dict := args_primary_scan env local_vars
  if args_dict.length ≠ 0 then .ok ((args_dict.length : ℚ), args_dict)
  else
    let f_end := env.prevHead (env.findFuncEnd function_ea) 0
    let instr_mnem := env.printInsnMnem f_end
    let stdcall : Option (Except String ℚ) :=
      if pyIn "ret" instr_mnem then
        match get_instr_operands env f_end with
        | [o] =>
          some (match pyIntHex (pyReplace o.1 "h" "") with
            | .error e => .error e
            | .ok v => .ok ((v : ℚ) / (ARGUMENT_SIZE : ℚ)))
        | _ => none
      else none
    match stdcall with
    | some (.error e) => .error e
    | some (.ok q) => .ok (q, args_dict)
    | none => cdeclLoop env (env.codeRefsTo function_ea) args_dict

/-- The comparison classification inside `Metrics_function.get_chepin`:
variables with a usage at a `cmp`/`test` instruction, with those usage
addresses. -/
def chepin_tmp_dict (env : Env) (local_vars : List (String × List Nat)) :
    List (String × List Nat) :=
  local_vars.foldl (fun d q =>
    q.2.foldl (fun d instr_addr =>
      let instr_mnem := env.printInsnMnem instr_addr
      if pyStartsWith instr_mnem "cmp" ∨ pyStartsWith instr_mnem "test" then
        dappend d q.1 instr_addr
      else d) d) []

/-- `Metrics_function.get_chepin`: `Q = P + 2M + 3C` with `P` the argument
count, `C` the comparison variables and `M` what remains of `local_vars`
after destructively deleting the argument and comparison variables from it.
The (possibly shrunk) `local_vars` is returned, because the deletion is a
side effect on `self.vars_local` in the source. -/
def get_chepin (env : Env) (function_ea : Nat)
    (local_vars : List (String × List Nat)) :
    Except String (ℚ × List (String × List Nat)) :=
  match get_function_args_count env function_ea local_vars with
  | .error e => .error e
  | .ok pr =>
    let p := pr.1
    let var_args_tmp := pr.2
    let tmp_dict := chepin_tmp_dict env local_vars
    let local_vars := var_args_tmp.foldl (fun lv q => ddel lv q.1) local_vars
    let local_vars := tmp_dict.foldl (fun lv q => ddel lv q.1) local_vars
    let c := tmp_dict.length
    let m := local_vars.length
    .ok (p + 2 * (m : ℚ) + 3 * (c : ℚ), local_vars)

/-- The write test applied per usage inside `get_oviedo_df`: a `mov`
instruction whose operand at enumeration index 0 contains the variable name
(the loop body requires `idx == 0`, so only the first printed operand can
match, after which the operand loop breaks). -/
def oviedo_write (env : Env) (local_var : String) (instr_addr : Nat) : Bool :=
  pyStartsWith (env.printInsnMnem instr_addr) "mov" ∧
    (get_instr_operands env instr_addr).enum.any
      (fun r => pyIn local_var r.2.1 ∧ r.1 = 0)

/-- `Metrics_function.get_oviedo_df`: for each local variable add its usage
count and subtract one for *every* usage that is a first-operand `mov`
write. -/
def get_oviedo_df (env : Env) (local_vars : List (String × List Nat)) : Int :=
  local_vars.foldl (fun oviedo_df q =>
    let dec := q.2.foldl (fun acc instr_addr =>
      if oviedo_write env q.1 instr_addr then acc - 1 else acc) (0 : Int)
    oviedo_df + dec + (q.2.length : Int)) 0

/-- The inner operand loop of `get_unique_vars_read_write_count` for an
assignment instruction: a first-operand match counts one write and stops;
every other enumerated operand counts one read. -/
def rwScanGo (arg_var : String) (idx : Nat) (ops : List (String × Int))
    (acc : List (String × Nat) × List (String × Nat)) :
    List (String × Nat) × List (String × Nat) :=
  match ops with
  | [] => acc
  | o :: rest =>
    if pyIn arg_var o.1 ∧ idx = 0 then (acc.1, dincr acc.2 arg_var)
    else rwScanGo arg_var (idx + 1) rest (dincr acc.1 arg_var, acc.2)

/-- Run the operand loop of an assignment instruction over its printed
operands. -/
def rwScan (env : Env) (arg_var : String) (instr_addr : Nat)
    (acc : List (String × Nat) × List (String × Nat)) :
    List (String × Nat) × List (String × Nat) :=
  rwScanGo arg_var 0 (get_instr_operands env instr_addr) acc

/-- `Metrics_function.get_unique_vars_read_write_count`: how many distinct
variables of the dict have at least one read and at least one write. -/
def get_unique_vars_read_write_count (env : Env) (fstart fend : Nat)
    (vars_dict : List (String × List Nat)) : Nat × Nat :=
  let rw := vars_dict.foldl (fun acc q =>
    q.2.foldl (fun acc instr_addr =>
      let instr_type := GetInstructionType env fstart fend instr_addr
      if instr_type = .ASSIGNMENT then rwScan env q.1 instr_addr acc
      else if instr_type = .COMPARE then (dincr acc.1 q.1, acc.2)
      else acc) acc)
    (([], []) : List (String × Nat) × List (String × Nat))
  (rw.1.length, rw.2.length)

/-- Result of `Metrics_function.get_henryncafura_metric`: the fan components,
the detected argument dictionary (stored into `self.vars_args`) and the
metric value. -/
structure HCOut where
  fan_in_s : Nat
  fan_out_s : Nat
  fan_in_i : Nat
  fan_out_i : Nat
  vars_args : List (String × List Nat)
  value : Int
deriving DecidableEq, Repr

/-- `Metrics_function.get_henryncafura_metric`:
`CC + (fan_in + fan_out)²` with structural fans from the call tables and
informational fans from reads/writes of detected arguments and used
globals. -/
def get_henryncafura_metric (env : Env) (fstart fend function_ea : Nat)
    (CC : Int) (calls_dict : List (String × Nat))
    (vars_local global_vars_used : List (String × List Nat)) :
    Except String HCOut :=
  let fan_out_s := calls_dict.length
  let fan_in_s := (env.codeRefsTo function_ea).length
  match get_function_args_count env function_ea vars_local with
  | .error e => .error e
  | .ok pr =>
    let vars_args := pr.2
    let rw1 := get_unique_vars_read_write_count env fstart fend vars_args
    let fan_in_i := 0 + rw1.1
    let fan_out_i := 0 + rw1.2
    let rw2 := get_unique_vars_read_write_count env fstart fend global_vars_used
    let fan_in_i := fan_in_i + rw2.1
    let fan_out_i := fan_out_i + rw2.2
    let fan_in := fan_in_s + fan_in_i
    let fan_out := fan_out_s + fan_out_i
    .ok { fan_in_s := fan_in_s, fan_out_s := fan_out_s,
          fan_in_i := fan_in_i, fan_out_i := fan_out_i,
          vars_args := vars_args,
          value := CC + ((fan_in : Int) + (fan_out : Int)) ^ 2 }

/-- The metric selection mask (`metrics_mask`); field names follow the
`metrics_list` keys, with `cs` for `"c&s"`, `hc` for `"h&c"` and `glob` for
`"global"`. -/
structure Mask where
  loc : Bool := false
  bbls : Bool := false
  calls : Bool := false
  condit : Bool := false
  assign : Bool := false
  cc : Bool := false
  cc_mod : Bool := false
  jilb : Bool := false
  abc : Bool := false
  pi : Bool := false
  h : Bool := false
  harr : Bool := false
  bound : Bool := false
  span : Bool := false
  glob : Bool := false
  oviedo : Bool := false
  chepin : Bool := false
  cs : Bool := false
  hc : Bool := false
  cocol : Bool := false
deriving DecidableEq, Repr

/-- The `Metrics_function` result record: every `self` attribute that
survives `start_analysis` (the dict attributes are cleared on success, but
kept as mutated when an exception interrupts the analysis). -/
structure FnRec where
  function_name : String := ""
  loc_count : Nat := 0
  condition_count : Nat := 0
  calls_count : Nat := 0
  assign_count : Nat := 0
  bbl_count : Nat := 0
  R : ℚ := 0
  CC : Int := 0
  CL : ℚ := 0
  ABC : ℚ := 0
  CC_modified : Int := 0
  Pivovarsky : Int := 0
  Halstead_basic : Hal := {}
  Harrison : Int := 0
  boundary_values : Int := 0
  span_metric : Nat := 0
  Oviedo : Int := 0
  Chepin : ℚ := 0
  global_vars_access : Nat := 0
  global_vars_metric : ℚ := 0
  bbls_boundaries : List (Nat × List Nat) := []
  CardnGlass : ℚ := 0
  fan_in_i : Nat := 0
  fan_in_s : Nat := 0
  fan_out_i : Nat := 0
  fan_out_s : Nat := 0
  HenrynCafura : Int := 0
  Cocol : ℚ := 0
  vars_local : List (String × List Nat) := []
  vars_args : List (String × List Nat) := []
  global_vars_used : List (String × List Nat) := []
  calls_dict : List (String × Nat) := []
deriving DecidableEq, Repr

/-- The record state right after the instruction walk: builder counters and
tables copied in, every later metric still at its `__init__` default. -/
def recOfBuild (env : Env) (function_ea : Nat) (b : BState) : FnRec :=
  { function_name := env.funcName function_ea
    loc_count := b.loc_count
    condition_count := b.condition_count
    calls_count := b.calls_count
    assign_count := b.assign_count
    global_vars_access := b.global_vars_access
    vars_local := b.vars_local
    global_vars_used := b.global_vars_used
    calls_dict := b.calls_dict }

/-- A step of the metric phase: may fail, keeping the record mutated so
far. -/
def MStep : Type := FnRec → FnRec × Option String

/-- Lift an infallible metric step. -/
def mpure (f : FnRec → FnRec) : MStep := fun r => (f r, none)

/-- Record the basic-block boundaries dict (`self.bbls_boundaries[bbl[0]] =
bbl`); blocks produced by `get_bbls` are never empty (see
`get_bbls_ne_nil`). -/
def stepBblsBoundaries (bbls : List (List Nat)) (fr : FnRec) : FnRec :=
  { fr with bbls_boundaries := bbls.foldl (fun d bbl =>
      match bbl.head? with
      | none => d
      | some h => dset d h bbl) [] }

/-- Cyclomatic complexity `CC = E - V + 2` when selected (or needed by
Cocol). -/
def stepCC (mask : Mask) (b : BState) (fr : FnRec) : FnRec :=
  if mask.cc = true ∨ mask.cocol = true then
    { fr with CC := (b.edges.length : Int) - (b.boundaries.length : Int) + 2 }
  else fr

/-- The unconditional `R` measure and basic-block count. -/
def stepR (b : BState) (fr : FnRec) : FnRec :=
  { fr with R := (b.edges.length : ℚ) / (b.boundaries.length : ℚ),
             bbl_count := b.boundaries.length }

/-- Jilb's metric `(conditions + calls) / LOC`, 0 for an empty routine. -/
def stepJilb (mask : Mask) (fr : FnRec) : FnRec :=
  if mask.jilb = true then
    if fr.loc_count = 0 then { fr with CL := 0 }
    else
      { fr with CL := ((fr.condition_count : ℚ) + (fr.calls_count : ℚ)) /
          (fr.loc_count : ℚ) }
  else fr

/-- ABC metric `sqrt(A² + B² + C²)`. -/
def stepABC (env : Env) (mask : Mask) (fr : FnRec) : FnRec :=
  if mask.abc = true then
    { fr with ABC := env.sqrtQ ((fr.assign_count : ℚ) ^ 2 +
        (fr.condition_count : ℚ) ^ 2 + (fr.calls_count : ℚ) ^ 2) }
  else fr

/-- Modified cyclomatic complexity: each switch (bar its default case)
collapses to one edge and one node; without switches it is plain `CC`. -/
def stepCCMod (mask : Mask) (b : BState) (fr : FnRec) : FnRec :=
  if mask.cc_mod = true then
    if b.cases_in_switches ≠ 0 then
      { fr with CC_modified :=
          ((b.edges.length : Int) - ((b.cases_in_switches : Int) - 1) * 2) -
            ((b.boundaries.length : Int) - ((b.cases_in_switches : Int) - 1)) + 2 }
    else { fr with CC_modified := fr.CC }
  else fr

/-- The node-graph block of `start_analysis`: build the graph when any of
Harrison / boundary-value / Pivovarsky is selected, then evaluate them in
source order (Harrison, boundary, modified CC, Pivovarsky).  A `make_graph`
failure aborts the routine. -/
def stepGraph (mask : Mask) (b : BState) (bbls : List (List Nat)) :
    MStep := fun fr =>
  if mask.harr = true ∨ mask.bound = true ∨ mask.pi = true then
    match make_graph b.edges bbls b.boundaries with
    | .error e => (fr, some e)
    | .ok node_graph =>
      let fr := if mask.harr = true then
          { fr with Harrison := get_harrison_metric node_graph bbls }
        else fr
      let fr := if mask.bound = true then
          { fr with boundary_values := get_boundary_value_metric node_graph false }
        else fr
      let fr := stepCCMod mask b fr
      let fr := if mask.pi = true then
          { fr with Pivovarsky := fr.CC_modified +
              get_boundary_value_metric node_graph true }
        else fr
      (fr, none)
  else (stepCCMod mask b fr, none)

/-- Halstead counters and derived values; `calculate` is only invoked when
the operand table is nonempty. -/
def stepHalstead (env : Env) (mask : Mask) (b : BState) : MStep := fun fr =>
  if mask.h = true ∨ mask.cocol = true then
    let hb := { fr.Halstead_basic with
      N1 := fr.loc_count, n1 := b.mnemonics.length, n2 := b.operands.length }
    if b.operands.length ≠ 0 then
      let hb := { hb with N2 := (b.operands.map (fun p => p.2)).sum }
      match Hal.calculate env hb with
      | (hb, some e) => ({ fr with Halstead_basic := hb }, some e)
      | (hb, none) => ({ fr with Halstead_basic := hb }, none)
    else ({ fr with Halstead_basic := hb }, none)
  else (fr, none)

/-- Span metric over the recorded block dictionary. -/
def stepSpan (env : Env) (fstart fend : Nat) (mask : Mask) (fr : FnRec) :
    FnRec :=
  if mask.span = true then
    { fr with span_metric := get_span_metric env fstart fend fr.bbls_boundaries }
  else fr

/-- Oviedo metric `|edges| + DF(vars_local)`. -/
def stepOviedo (env : Env) (mask : Mask) (b : BState) (fr : FnRec) : FnRec :=
  if mask.oviedo = true then
    { fr with Oviedo := (b.edges.length : Int) + get_oviedo_df env fr.vars_local }
  else fr

/-- Chepin metric; its destructive deletes land back in `vars_local`. -/
def stepChepin (env : Env) (function_ea : Nat) (mask : Mask) : MStep := fun fr =>
  if mask.chepin = true then
    match get_chepin env function_ea fr.vars_local with
    | .error e => (fr, some e)
    | .ok qlv => ({ fr with Chepin := qlv.1, vars_local := qlv.2 }, none)
  else (fr, none)

/-- Henry & Cafura metric (also required by Card & Glass).  The structural
fans are assigned before the fallible argument detection, as in the source,
so they survive a failure. -/
def stepHC (env : Env) (fstart fend function_ea : Nat) (mask : Mask) :
    MStep := fun fr =>
  if mask.hc = true ∨ mask.cs = true then
    let rec0 := { fr with fan_out_s := fr.calls_dict.length,
                           fan_in_s := (env.codeRefsTo function_ea).length }
    match get_henryncafura_metric env fstart fend function_ea fr.CC
        fr.calls_dict fr.vars_local fr.global_vars_used with
    | .error e => (rec0, some e)
    | .ok o =>
      ({ fr with fan_in_s := o.fan_in_s, fan_out_s := o.fan_out_s,
                  fan_in_i := o.fan_in_i, fan_out_i := o.fan_out_i,
                  vars_args := o.vars_args, HenrynCafura := o.value }, none)
  else (fr, none)

/-- Card & Glass metric from the fan-out components and argument count. -/
def stepCS (mask : Mask) (fr : FnRec) : FnRec :=
  if mask.cs = true then
    { fr with CardnGlass := ((fr.fan_out_i : ℚ) + (fr.fan_out_s : ℚ)) ^ 2 +
        (fr.vars_args.length : ℚ) /
          ((fr.fan_out_i : ℚ) + (fr.fan_out_s : ℚ) + 1) }
  else fr

/-- The `clear()` calls at the end of a successful `start_analysis`. -/
def stepClear (fr : FnRec) : FnRec :=
  { fr with vars_local := [], vars_args := [], global_vars_used := [],
             calls_dict := [] }

/-- Run a sequence of metric steps, stopping at the first failure (a raised
exception propagates out of `start_analysis` with the record as mutated so
far). -/
def runChain : List MStep → MStep
  | [] => fun fr => (fr, none)
  | s :: rest => fun fr =>
    match s fr with
    | (fr', none) => runChain rest fr'
    | (fr', some e) => (fr', some e)

/-- The metric steps of `Metrics_function.start_analysis` in source order. -/
def metricSteps (env : Env) (function_ea : Nat) (mask : Mask) (b : BState)
    (bbls : List (List Nat)) : List MStep :=
  [mpure (stepBblsBoundaries bbls),
   mpure (stepCC mask b),
   mpure (stepR b),
   mpure (stepJilb mask),
   mpure (stepABC env mask),
   stepGraph mask b bbls,
   stepHalstead env mask b,
   mpure (stepSpan env function_ea (env.findFuncEnd function_ea) mask),
   mpure (stepOviedo env mask b),
   stepChepin env function_ea mask,
   stepHC env function_ea (env.findFuncEnd function_ea) function_ea mask,
   mpure (stepCS mask),
   mpure stepClear]

/-- The metric phase of `Metrics_function.start_analysis`, applied to the
builder output, in source order. -/
def computeMetrics (env : Env) (function_ea : Nat) (mask : Mask)
    (b : BState) : FnRec × Option String :=
  let bbls := get_bbls env function_ea (env.findFuncEnd function_ea)
    (env.funcChunks function_ea) b.boundaries b.edges
  runChain (metricSteps env function_ea mask b bbls)
    (recOfBuild env function_ea b)

/-- Module-level state of the `Metrics` aggregator, including the
routine-name-keyed function table and the module-wide `global_vars_dict`. -/
structure ModState where
  total_loc_count : Nat := 0
  average_loc_count : ℚ := 0
  total_bbl_count : Nat := 0
  total_func_count : Nat := 0
  total_condition_count : Nat := 0
  total_assign_count : Nat := 0
  R_total : ℚ := 0
  CC_total : Int := 0
  CL_total : ℚ := 0
  ABC_total : ℚ := 0
  Halstead_total : Hal := {}
  CC_modified_total : Int := 0
  Pivovarsky_total : Int := 0
  Harrison_total : ℚ := 0
  boundary_values_total : ℚ := 0
  span_metric_total : Nat := 0
  Oviedo_total : Int := 0
  Chepin_total : ℚ := 0
  global_vars_metric_total : ℚ := 0
  Cocol_total : ℚ := 0
  HenrynCafura_total : ℚ := 0
  CardnGlass_total : ℚ := 0
  functions : List (String × FnRec) := []
  gvars : List (String × Nat) := []
deriving DecidableEq, Repr

/-- `Metrics.collect_total_metrics`: fold one completed routine into the
running totals; under the Cocol mask also back-patch the routine's own
Cocol value. -/
def collect_total_metrics (mask : Mask) (st : ModState)
    (function_name : String) : ModState :=
  match dget st.functions function_name with
  | none => st
  | some fr =>
    let st := { st with
      total_loc_count := st.total_loc_count + fr.loc_count
      total_bbl_count := st.total_bbl_count + fr.bbl_count
      total_func_count := st.total_func_count + 1
      total_condition_count := st.total_condition_count + fr.condition_count
      total_assign_count := st.total_assign_count + fr.assign_count
      R_total := st.R_total + fr.R
      CC_modified_total := st.CC_modified_total + fr.CC_modified
      Pivovarsky_total := st.Pivovarsky_total + fr.Pivovarsky
      Harrison_total := st.Harrison_total + (fr.Harrison : ℚ)
      boundary_values_total := st.boundary_values_total + (fr.boundary_values : ℚ)
      Halstead_total := { st.Halstead_total with
        n1 := st.Halstead_total.n1 + fr.Halstead_basic.n1
        n2 := st.Halstead_total.n2 + fr.Halstead_basic.n2
        N1 := st.Halstead_total.N1 + fr.Halstead_basic.N1
        N2 := st.Halstead_total.N2 + fr.Halstead_basic.N2 }
      CC_total := st.CC_total + fr.CC
      CL_total := st.CL_total + fr.CL
      ABC_total := st.ABC_total + fr.ABC
      span_metric_total := st.span_metric_total + fr.span_metric
      Oviedo_total := st.Oviedo_total + fr.Oviedo
      Chepin_total := st.Chepin_total + fr.Chepin
      HenrynCafura_total := st.HenrynCafura_total + (fr.HenrynCafura : ℚ)
      CardnGlass_total := st.CardnGlass_total + fr.CardnGlass }
    if mask.cocol = true then
      { st with functions := dset st.functions function_name
                  ({ fr with Cocol := fr.Halstead_basic.B + (fr.CC : ℚ) + (fr.loc_count : ℚ) }) }
    else st

/-- One routine of the orchestrator loop in `Metrics.start_analysis`: the
partially initialised `Metrics_function` object is stored in the function
table *before* its analysis runs, so it remains there (with whatever state
it reached) when the analysis raises; totals are only collected on
success. -/
def moduleStep (env : Env) (mask : Mask) (st : ModState)
    (function_ea : Nat) : ModState :=
  let function_name := env.funcName function_ea
  if (dget st.functions function_name).isSome then st
  else
    match runBuilder env function_ea st.gvars with
    | (b, some _) =>
      { st with functions := dset st.functions function_name (recOfBuild env function_ea b)
                gvars := b.gvars }
    | (b, none) =>
      match computeMetrics env function_ea mask b with
      | (rec, some _) =>
        { st with functions := dset st.functions function_name rec
                  gvars := b.gvars }
      | (rec, none) =>
        let st := { st with functions := dset st.functions function_name rec
                            gvars := b.gvars }
        collect_total_metrics mask st function_name

/-- `Metrics.add_global_vars_metric`: set each routine's global-access ratio
w.r.t. the module-wide global table (failed routines included, since they
stay in the function table) and total the ratios. -/
def add_global_vars_metric (st : ModState) : ModState × ℚ :=
  st.functions.foldl (fun acc p =>
    let fr := p.2
    let fr := if st.gvars.length > 0 then
        { fr with global_vars_metric := (fr.global_vars_access : ℚ) / (st.gvars.length : ℚ) }
      else fr
    ({ acc.1 with functions := dset acc.1.functions p.1 fr },
      acc.2 + fr.global_vars_metric)) (st, 0)

/-- `Metrics.collect_final_metrics`: the average LOC, the module-total
Halstead derivation (whose domain error on an empty module escapes), the
global ratio and the module Cocol value. -/
def collect_final_metrics (env : Env) (mask : Mask) (st : ModState) :
    ModState × Option String :=
  let st := if st.total_func_count > 0 then
      { st with average_loc_count := (st.total_loc_count : ℚ) / (st.total_func_count : ℚ) }
    else st
  let hres : ModState × Option String :=
    if mask.h = true ∨ mask.cocol = true then
      match Hal.calculate env st.Halstead_total with
      | (hh, some e) => ({ st with Halstead_total := hh }, some e)
      | (hh, none) => ({ st with Halstead_total := hh }, none)
    else (st, none)
  match hres with
  | (st, some e) => (st, some e)
  | (st, none) =>
    let st := if mask.glob = true then
        let r := add_global_vars_metric st
        { r.1 with global_vars_metric_total := r.2 }
      else st
    let st := if mask.cocol = true then
        { st with Cocol_total := st.Cocol_total + st.Halstead_total.B +
            (st.CC_total : ℚ) + (st.total_loc_count : ℚ) }
      else st
    (st, none)

/-- `Metrics.start_analysis` over the routine enumeration, followed by
`collect_final_metrics`. -/
def moduleAnalyze (env : Env) (mask : Mask) : ModState × Option String :=
  collect_final_metrics env mask
    (env.routines.foldl (moduleStep env mask) {})

/-- The concatenated instruction heads of all chunks of a routine, in
program order. -/
def routineHeads (env : Env) (chunks : List (Nat × Nat)) : List Nat :=
  (chunks.map (fun c => env.heads c.1 c.2)).flatten

/-- The boundary-value formula exactly as the claim states it: *every* node
with fewer than two successors — terminal nodes included — contributes 1,
branch nodes contribute their subgraph count, and the total is decremented
by one. -/
def boundary_value_claim (ng : NodeGraph) : Int :=
  (ng.foldl (fun acc p =>
    let cs := p.2.getD []
    if cs.length ≥ 2 then
      acc + ((get_subgraph_nodes_count ng (subFuel ng) p.1 []).1 : Int)
    else acc + 1) 0) - 1

/-- The boundary-value formula amended to match the code: a node stored with
no successor list (terminal) contributes nothing, a branch node (`≥ 2`
successors) contributes its subgraph node count from a fresh traversal, any
other node contributes 1, and the total is decremented by one. -/
def boundary_value_spec_amended (ng : NodeGraph) : Int :=
  (ng.foldl (fun acc p =>
    match p.2 with
    | none => acc
    | some cs =>
      if cs.length ≥ 2 then
        acc + ((get_subgraph_nodes_count ng (subFuel ng) p.1 []).1 : Int)
      else acc + 1) 0) - 1

/-- The Oviedo data-flow term exactly as the claim states it: per variable,
its total reference count minus one exactly when the *first* recorded use is
a write. -/
def oviedo_df_claim (env : Env) (local_vars : List (String × List Nat)) : Int :=
  local_vars.foldl (fun acc q =>
    acc + (q.2.length : Int) -
      (match q.2.head? with
       | some a => if oviedo_write env q.1 a then 1 else 0
       | none => 0)) 0

/-- The Oviedo data-flow term amended to match the code: per variable, its
total reference count minus one for *every* recorded use that is a
first-operand `mov` write. -/
def oviedo_df_amended (env : Env) (local_vars : List (String × List Nat)) : Int :=
  local_vars.foldl (fun acc q =>
    acc + (q.2.length : Int) - (q.2.countP (fun a => oviedo_write env q.1 a) : Int)) 0

/-- A host environment where nothing is code and every primitive returns its
bottom value; concrete test environments override what they need. -/
def defEnv : Env where
  isCode := fun _ => false
  isFlow := fun _ => false
  codeRefsFrom := fun _ => []
  codeRefsTo := fun _ => []
  nextHead := fun _ _ => 0
  prevHead := fun _ _ => BADADDR
  printInsnMnem := fun _ => ""
  printOperand := fun _ _ => ""
  operandType := fun _ _ => 0
  operandValue := fun _ _ => 0
  isCallInsn := fun _ => false
  hasChg := fun _ => false
  hasUse := fun _ => false
  heads := fun _ _ => []
  dataRefsToCount := fun _ => 0
  switchInfo := fun _ => none
  getDisasm := fun _ => ""
  findFuncEnd := fun _ => 0
  funcChunks := fun _ => []
  funcName := fun _ => ""
  routines := []
  log2 := fun _ => 0
  sqrtQ := fun _ => 0
  pow23 := fun _ => 0

/-- A one-instruction routine at `10`: chunk `[10, 12)`, a single
non-branching instruction. -/
def envW1 : Env :=
  { defEnv with
    isCode := fun a => a = 10
    heads := fun s _ => if s = 10 then [10] else []
    funcChunks := fun _ => [(10, 12)]
    findFuncEnd := fun _ => 12 }

/-- A routine at `100` (chunk `[100, 104)`, `find_func_end = 400`) whose
first instruction `100` is a conditional branch to `300` — inside the
`[function_start, function_end]` window used by the classifier, but outside
every chunk, so the control-flow builder keeps no reference for it. -/
def env4 : Env :=
  { defEnv with
    isCode := fun a => a = 100 ∨ a = 102
    isFlow := fun a => a = 102
    codeRefsFrom := fun a => if a = 100 then [300] else []
    nextHead := fun a _ => a + 2
    printInsnMnem := fun a => if a = 100 then "jz" else "mov"
    heads := fun s _ => if s = 100 then [100, 102] else []
    funcChunks := fun _ => [(100, 104)]
    findFuncEnd := fun _ => 400 }

/-- Like `env4`, but the conditional branch is the *second* instruction
`102` (not a boundary), branching to `300` outside the chunks. -/
def env4b : Env :=
  { defEnv with
    isCode := fun a => a = 100 ∨ a = 102
    isFlow := fun a => a = 104
    codeRefsFrom := fun a => if a = 102 then [300] else []
    nextHead := fun a _ => a + 2
    printInsnMnem := fun a => if a = 102 then "jz" else "mov"
    heads := fun s _ => if s = 100 then [100, 102] else []
    funcChunks := fun _ => [(100, 104)]
    findFuncEnd := fun _ => 400 }

/-- A node graph with one single-successor node `1` and one terminal node
`2`. -/
def ngC6 : NodeGraph := [(1, some [2]), (2, none)]

/-- Environment for the Chepin claims: variable `arg_0` is used at the `cmp`
instruction `500` with an argument-shaped operand, variable `loc_8` at the
`mov` instruction `502` with a non-argument operand. -/
def env7 : Env :=
  { defEnv with
    printInsnMnem := fun a => if a = 500 then "cmp" else if a = 502 then "mov" else ""
    printOperand := fun a i =>
      if i = 0 then
        if a = 500 then "[ebp+arg_0]" else if a = 502 then "[ebp+0C0h]" else ""
      else ""
    operandValue := fun a i => if a = 500 ∧ i = 0 then 8 else if a = 502 ∧ i = 0 then 200 else 0 }

/-- The local-variable table fed to the Chepin computation in `env7`. -/
def lv7 : List (String × List Nat) := [("arg_0", [500]), ("loc_8", [502])]

/-- Environment for the Oviedo claim: a routine at `600` whose two
instructions are `mov`s with first operand `[ebp+v]`, so variable `v` is
referenced twice, both times as a write. -/
def env8 : Env :=
  { defEnv with
    isCode := fun a => a = 600 ∨ a = 602
    printInsnMnem := fun a => if a = 600 ∨ a = 602 then "mov" else ""
    printOperand := fun a i =>
      if (a = 600 ∨ a = 602) ∧ i = 0 then "[ebp+v]" else ""
    operandType := fun a i => if (a = 600 ∨ a = 602) ∧ i = 0 then o_displ else 0
    heads := fun s _ => if s = 600 then [600, 602] else []
    funcChunks := fun _ => [(600, 604)]
    findFuncEnd := fun _ => 604 }

/-- The local-variable table for the Oviedo claim. -/
def lv8 : List (String × List Nat) := [("v", [600, 602])]

/-- A routine at `800` with a single `mov` whose first operand is the
argument slot `[ebp+arg_0]` (displacement operand, small offset). -/
def env10 : Env :=
  { defEnv with
    isCode := fun a => a = 800
    hasChg := fun a => a = 800
    printInsnMnem := fun a => if a = 800 then "mov" else ""
    printOperand := fun a i =>
      if a = 800 then (if i = 0 then "[ebp+arg_0]" else if i = 1 then "eax" else "")
      else ""
    operandType := fun a i => if a = 800 ∧ i = 0 then o_displ else if a = 800 ∧ i = 1 then o_reg else 0
    operandValue := fun a i => if a = 800 ∧ i = 0 then 8 else 0
    heads := fun s _ => if s = 800 then [800] else []
    funcChunks := fun _ => [(800, 804)]
    findFuncEnd := fun _ => 804
    prevHead := fun a _ => if a = 804 then 800 else BADADDR }

/-- The selection mask for the side-effect claim: Chepin and Henry&Cafura. -/
def mask10 : Mask := { chepin := true, hc := true }

/-- `mask10` with Chepin deselected. -/
def mask10' : Mask := { hc := true }

/-- A module with one routine `900` named `f`: its first instruction
references the global `gvar` (two incoming data references), its second
head is `BADADDR`, so the routine's analysis raises after the global tally
was already recorded. -/
def envC9 : Env :=
  { defEnv with
    isCode := fun a => a = 900
    printOperand := fun a i => if a = 900 ∧ i = 0 then "gvar" else ""
    operandType := fun a i => if a = 900 ∧ i = 0 then o_mem else 0
    operandValue := fun a i => if a = 900 ∧ i = 0 then 1234 else 0
    dataRefsToCount := fun v => if v = 1234 then 2 else 0
    printInsnMnem := fun a => if a = 900 then "mov" else ""
    heads := fun s _ => if s = 900 then [900, BADADDR] else []
    funcChunks := fun _ => [(900, 910)]
    findFuncEnd := fun _ => 910
    funcName := fun a => if a = 900 then "f" else ""
    routines := [900] }

/-- The selection mask for the error-handling claim: only the global-access
ratio. -/
def maskC9 : Mask := { glob := true }

section ChainLemmas

/-- When a step succeeds, the chain continues from its output. -/
theorem runChain_cons_ok {s : MStep} {rest : List MStep} {fr : FnRec}
    (h : (s fr).2 = none) :
    runChain (s :: rest) fr = runChain rest (s fr).1 := by
  rcases hs : s fr with ⟨fr', e⟩
  cases e with
  | none => simp [runChain, hs]
  | some x => rw [hs] at h; simp at h

/-- A succeeding chain's head step succeeds. -/
theorem runChain_cons_none {s : MStep} {rest : List MStep} {fr : FnRec}
    (h : (runChain (s :: rest) fr).2 = none) : (s fr).2 = none := by
  rcases hs : s fr with ⟨fr', e⟩
  cases e with
  | none => rfl
  | some x => simp [runChain, hs] at h

/-- A projection kept by every step of a chain is kept by the chain. -/
theorem runChain_keeps {α : Type} (π : FnRec → α) :
    ∀ (steps : List MStep), (∀ s ∈ steps, ∀ fr, π (s fr).1 = π fr) →
      ∀ fr, π (runChain steps fr).1 = π fr := by
  intro steps
  induction steps with
  | nil => intro _ fr; rfl
  | cons s rest ih =>
    intro h fr
    have hs := h s (List.mem_cons_self s rest)
    rcases hfr : s fr with ⟨fr', e⟩
    have hfr1 : π fr' = π fr := by
      have := hs fr; rw [hfr] at this; exact this
    cases e with
    | none =>
      rw [runChain_cons_ok (by rw [hfr])]
      rw [hfr]
      rw [ih (fun s' hs' => h s' (List.mem_cons_of_mem _ hs')) fr', hfr1]
    | some x =>
      simp only [runChain, hfr]
      exact hfr1

/-- A pure step never fails. -/
theorem mpure_snd (f : FnRec → FnRec) (fr : FnRec) : (mpure f fr).2 = none := rfl

/-- The record of a pure step. -/
theorem mpure_fst (f : FnRec → FnRec) (fr : FnRec) : (mpure f fr).1 = f fr := rfl

end ChainLemmas

section StepKeeps

/-- Fields of interest for the claims: all steps but `stepCC` keep `CC`,
all steps before `stepChepin` keep `vars_local`, `calls_dict` and
`global_vars_used`, all steps after `stepOviedo`/`stepHC` keep `Oviedo` and
`HenrynCafura`. -/
theorem stepBblsBoundaries_keeps (bbls : List (List Nat)) (fr : FnRec) :
    (stepBblsBoundaries bbls fr).CC = fr.CC ∧
    (stepBblsBoundaries bbls fr).vars_local = fr.vars_local ∧
    (stepBblsBoundaries bbls fr).calls_dict = fr.calls_dict ∧
    (stepBblsBoundaries bbls fr).global_vars_used = fr.global_vars_used ∧
    (stepBblsBoundaries bbls fr).Oviedo = fr.Oviedo ∧
    (stepBblsBoundaries bbls fr).HenrynCafura = fr.HenrynCafura := by
  unfold stepBblsBoundaries
  exact ⟨rfl, rfl, rfl, rfl, rfl, rfl⟩

/-- `stepCC` only writes `CC`. -/
theorem stepCC_keeps (mask : Mask) (b : BState) (fr : FnRec) :
    (stepCC mask b fr).vars_local = fr.vars_local ∧
    (stepCC mask b fr).calls_dict = fr.calls_dict ∧
    (stepCC mask b fr).global_vars_used = fr.global_vars_used ∧
    (stepCC mask b fr).Oviedo = fr.Oviedo ∧
    (stepCC mask b fr).HenrynCafura = fr.HenrynCafura := by
  unfold stepCC
  split <;> exact ⟨rfl, rfl, rfl, rfl, rfl⟩

/-- `stepR` only writes `R` and `bbl_count`. -/
theorem stepR_keeps (b : BState) (fr : FnRec) :
    (stepR b fr).CC = fr.CC ∧
    (stepR b fr).vars_local = fr.vars_local ∧
    (stepR b fr).calls_dict = fr.calls_dict ∧
    (stepR b fr).global_vars_used = fr.global_vars_used ∧
    (stepR b fr).Oviedo = fr.Oviedo ∧
    (stepR b fr).HenrynCafura = fr.HenrynCafura := by
  unfold stepR
  exact ⟨rfl, rfl, rfl, rfl, rfl, rfl⟩

/-- `stepJilb` only writes `CL`. -/
theorem stepJilb_keeps (mask : Mask) (fr : FnRec) :
    (stepJilb mask fr).CC = fr.CC ∧
    (stepJilb mask fr).vars_local = fr.vars_local ∧
    (stepJilb mask fr).calls_dict = fr.calls_dict ∧
    (stepJilb mask fr).global_vars_used = fr.global_vars_used ∧
    (stepJilb mask fr).Oviedo = fr.Oviedo ∧
    (stepJilb mask fr).HenrynCafura = fr.HenrynCafura := by
  unfold stepJilb
  split
  · split <;> exact ⟨rfl, rfl, rfl, rfl, rfl, rfl⟩
  · exact ⟨rfl, rfl, rfl, rfl, rfl, rfl⟩

/-- `stepABC` only writes `ABC`. -/
theorem stepABC_keeps (env : Env) (mask : Mask) (fr : FnRec) :
    (stepABC env mask fr).CC = fr.CC ∧
    (stepABC env mask fr).vars_local = fr.vars_local ∧
    (stepABC env mask fr).calls_dict = fr.calls_dict ∧
    (stepABC env mask fr).global_vars_used = fr.global_vars_used ∧
    (stepABC env mask fr).Oviedo = fr.Oviedo ∧
    (stepABC env mask fr).HenrynCafura = fr.HenrynCafura := by
  unfold stepABC
  split <;> exact ⟨rfl, rfl, rfl, rfl, rfl, rfl⟩

/-- `stepCCMod` only writes `CC_modified`. -/
theorem stepCCMod_keeps (mask : Mask) (b : BState) (fr : FnRec) :
    (stepCCMod mask b fr).CC = fr.CC ∧
    (stepCCMod mask b fr).vars_local = fr.vars_local ∧
    (stepCCMod mask b fr).calls_dict = fr.calls_dict ∧
    (stepCCMod mask b fr).global_vars_used = fr.global_vars_used ∧
    (stepCCMod mask b fr).Oviedo = fr.Oviedo ∧
    (stepCCMod mask b fr).HenrynCafura = fr.HenrynCafura := by
  unfold stepCCMod
  split
  · split <;> exact ⟨rfl, rfl, rfl, rfl, rfl, rfl⟩
  · exact ⟨rfl, rfl, rfl, rfl, rfl, rfl⟩

/-- `stepGraph` only writes `Harrison`, `boundary_values`, `CC_modified`
and `Pivovarsky`. -/
theorem stepGraph_keeps (mask : Mask) (b : BState) (bbls : List (List Nat))
    (fr : FnRec) :
    ((stepGraph mask b bbls fr).1).CC = fr.CC ∧
    ((stepGraph mask b bbls fr).1).vars_local = fr.vars_local ∧
    ((stepGraph mask b bbls fr).1).calls_dict = fr.calls_dict ∧
    ((stepGraph mask b bbls fr).1).global_vars_used = fr.global_vars_used ∧
    ((stepGraph mask b bbls fr).1).Oviedo = fr.Oviedo ∧
    ((stepGraph mask b bbls fr).1).HenrynCafura = fr.HenrynCafura := by
  unfold stepGraph stepCCMod
  repeat' split
  all_goals exact ⟨rfl, rfl, rfl, rfl, rfl, rfl⟩

/-- `stepHalstead` only writes `Halstead_basic`. -/
theorem stepHalstead_keeps (env : Env) (mask : Mask) (b : BState) (fr : FnRec) :
    ((stepHalstead env mask b fr).1).CC = fr.CC ∧
    ((stepHalstead env mask b fr).1).vars_local = fr.vars_local ∧
    ((stepHalstead env mask b fr).1).calls_dict = fr.calls_dict ∧
    ((stepHalstead env mask b fr).1).global_vars_used = fr.global_vars_used ∧
    ((stepHalstead env mask b fr).1).Oviedo = fr.Oviedo ∧
    ((stepHalstead env mask b fr).1).HenrynCafura = fr.HenrynCafura := by
  unfold stepHalstead
  split
  · split
    · dsimp only
      split <;> exact ⟨rfl, rfl, rfl, rfl, rfl, rfl⟩
    · exact ⟨rfl, rfl, rfl, rfl, rfl, rfl⟩
  · exact ⟨rfl, rfl, rfl, rfl, rfl, rfl⟩

/-- `stepSpan` only writes `span_metric`. -/
theorem stepSpan_keeps (env : Env) (fstart fend : Nat) (mask : Mask) (fr : FnRec) :
    (stepSpan env fstart fend mask fr).CC = fr.CC ∧
    (stepSpan env fstart fend mask fr).vars_local = fr.vars_local ∧
    (stepSpan env fstart fend mask fr).calls_dict = fr.calls_dict ∧
    (stepSpan env fstart fend mask fr).global_vars_used = fr.global_vars_used ∧
    (stepSpan env fstart fend mask fr).Oviedo = fr.Oviedo ∧
    (stepSpan env fstart fend mask fr).HenrynCafura = fr.HenrynCafura := by
  unfold stepSpan
  split <;> exact ⟨rfl, rfl, rfl, rfl, rfl, rfl⟩

/-- `stepOviedo` only writes `Oviedo`. -/
theorem stepOviedo_keeps (env : Env) (mask : Mask) (b : BState) (fr : FnRec) :
    (stepOviedo env mask b fr).CC = fr.CC ∧
    (stepOviedo env mask b fr).vars_local = fr.vars_local ∧
    (stepOviedo env mask b fr).calls_dict = fr.calls_dict ∧
    (stepOviedo env mask b fr).global_vars_used = fr.global_vars_used ∧
    (stepOviedo env mask b fr).HenrynCafura = fr.HenrynCafura := by
  unfold stepOviedo
  split <;> exact ⟨rfl, rfl, rfl, rfl, rfl⟩

/-- `stepChepin` only writes `Chepin` and `vars_local`. -/
theorem stepChepin_keeps (env : Env) (function_ea : Nat) (mask : Mask) (fr : FnRec) :
    ((stepChepin env function_ea mask fr).1).CC = fr.CC ∧
    ((stepChepin env function_ea mask fr).1).calls_dict = fr.calls_dict ∧
    ((stepChepin env function_ea mask fr).1).global_vars_used = fr.global_vars_used ∧
    ((stepChepin env function_ea mask fr).1).Oviedo = fr.Oviedo ∧
    ((stepChepin env function_ea mask fr).1).HenrynCafura = fr.HenrynCafura := by
  unfold stepChepin
  repeat' split
  all_goals exact ⟨rfl, rfl, rfl, rfl, rfl⟩

/-- `stepHC` only writes the fan fields, `vars_args` and `HenrynCafura`. -/
theorem stepHC_keeps (env : Env) (fstart fend function_ea : Nat) (mask : Mask)
    (fr : FnRec) :
    ((stepHC env fstart fend function_ea mask fr).1).CC = fr.CC ∧
    ((stepHC env fstart fend function_ea mask fr).1).vars_local = fr.vars_local ∧
    ((stepHC env fstart fend function_ea mask fr).1).Oviedo = fr.Oviedo := by
  unfold stepHC
  repeat' split
  all_goals exact ⟨rfl, rfl, rfl⟩

/-- `stepCS` only writes `CardnGlass`. -/
theorem stepCS_keeps (mask : Mask) (fr : FnRec) :
    (stepCS mask fr).CC = fr.CC ∧
    (stepCS mask fr).vars_local = fr.vars_local ∧
    (stepCS mask fr).Oviedo = fr.Oviedo ∧
    (stepCS mask fr).HenrynCafura = fr.HenrynCafura := by
  unfold stepCS
  split <;> exact ⟨rfl, rfl, rfl, rfl⟩

/-- `stepClear` only empties the dict attributes. -/
theorem stepClear_keeps (fr : FnRec) :
    (stepClear fr).CC = fr.CC ∧
    (stepClear fr).Oviedo = fr.Oviedo ∧
    (stepClear fr).HenrynCafura = fr.HenrynCafura := by
  unfold stepClear
  exact ⟨rfl, rfl, rfl⟩

end StepKeeps

/-- Every metric step after `stepCC` leaves `CC` untouched. -/
theorem metricSteps_keeps_CC (env : Env) (function_ea : Nat) (mask : Mask)
    (b : BState) (bbls : List (List Nat)) :
    ∀ s ∈ [mpure (stepR b),
           mpure (stepJilb mask),
           mpure (stepABC env mask),
           stepGraph mask b bbls,
           stepHalstead env mask b,
           mpure (stepSpan env function_ea (env.findFuncEnd function_ea) mask),
           mpure (stepOviedo env mask b),
           stepChepin env function_ea mask,
           stepHC env function_ea (env.findFuncEnd function_ea) function_ea mask,
           mpure (stepCS mask),
           mpure stepClear], ∀ fr : FnRec, (s fr).1.CC = fr.CC := by
  intro s hs fr
  simp only [List.mem_cons, List.not_mem_nil, or_false] at hs
  rcases hs with rfl | rfl | rfl | rfl | rfl | rfl | rfl | rfl | rfl | rfl | rfl
  · exact (stepR_keeps b fr).1
  · exact (stepJilb_keeps mask fr).1
  · exact (stepABC_keeps env mask fr).1
  · exact (stepGraph_keeps mask b bbls fr).1
  · exact (stepHalstead_keeps env mask b fr).1
  · exact (stepSpan_keeps env _ _ mask fr).1
  · exact (stepOviedo_keeps env mask b fr).1
  · exact (stepChepin_keeps env function_ea mask fr).1
  · exact (stepHC_keeps env _ _ _ mask fr).1
  · exact (stepCS_keeps mask fr).1
  · exact (stepClear_keeps fr).1

/-- The `CC` field of the analysis result is the McCabe value computed from
the builder's edge and boundary sets, whenever the mask asks for it. -/
theorem computeMetrics_CC (env : Env) (function_ea : Nat) (mask : Mask)
    (b : BState) (hm : mask.cc = true) :
    ((computeMetrics env function_ea mask b).1).CC =
      (b.edges.length : Int) - (b.boundaries.length : Int) + 2 := by
  unfold computeMetrics metricSteps
  dsimp only
  rw [runChain_cons_ok (mpure_snd _ _), runChain_cons_ok (mpure_snd _ _)]
  rw [runChain_keeps FnRec.CC _ (metricSteps_keeps_CC env function_ea mask b _)]
  show (stepCC mask b (stepBblsBoundaries _ (recOfBuild env function_ea b))).CC = _
  unfold stepCC
  rw [if_pos (Or.inl hm)]

section BblCover

/-- One `get_bbls` step preserves the stream: completed blocks plus the open
block always spell out the heads processed so far. -/
theorem bblStep_flatten (env : Env) (fstart fend : Nat) (bd : List Nat)
    (ed : List (Nat × Nat)) (acc : List (List Nat) × List Nat) (head : Nat) :
    (bblStep env fstart fend bd ed acc head).1.flatten ++
      (bblStep env fstart fend bd ed acc head).2 =
    acc.1.flatten ++ acc.2 ++ [head] := by
  rcases acc with ⟨bbls, bbl⟩
  unfold bblStep
  repeat' split
  all_goals simp_all [List.length_eq_zero]

/-- Folding `bblStep` over a head list appends it to the processed stream. -/
theorem bblFold_flatten (env : Env) (fstart fend : Nat) (bd : List Nat)
    (ed : List (Nat × Nat)) :
    ∀ (hs : List Nat) (acc : List (List Nat) × List Nat),
      (hs.foldl (bblStep env fstart fend bd ed) acc).1.flatten ++
        (hs.foldl (bblStep env fstart fend bd ed) acc).2 =
      acc.1.flatten ++ acc.2 ++ hs := by
  intro hs
  induction hs with
  | nil => intro acc; simp
  | cons h t ih =>
    intro acc
    have := ih (bblStep env fstart fend bd ed acc h)
    rw [List.foldl_cons, this, bblStep_flatten]
    simp

/-- The fold of per-chunk folds in `get_bbls` is the fold over the
concatenated heads of all chunks. -/
theorem foldl_chunks_flatten (env : Env) (fstart fend : Nat) (bd : List Nat)
    (ed : List (Nat × Nat)) :
    ∀ (cs : List (Nat × Nat)) (init : List (List Nat) × List Nat),
      cs.foldl (fun acc chunk =>
          (env.heads chunk.1 chunk.2).foldl (bblStep env fstart fend bd ed) acc) init =
        ((cs.map (fun c => env.heads c.1 c.2)).flatten).foldl
          (bblStep env fstart fend bd ed) init := by
  intro cs
  induction cs with
  | nil => intro init; rfl
  | cons c t ih =>
    intro init
    rw [List.map_cons, List.flatten_cons, List.foldl_append, List.foldl_cons, ih]

/-- The concatenation of the produced basic blocks is exactly the routine's
instruction stream, for any boundary and edge sets. -/
theorem get_bbls_flatten (env : Env) (fstart fend : Nat)
    (chunks : List (Nat × Nat)) (bd : List Nat) (ed : List (Nat × Nat)) :
    (get_bbls env fstart fend chunks bd ed).flatten = routineHeads env chunks := by
  unfold get_bbls routineHeads
  dsimp only
  rw [foldl_chunks_flatten env fstart fend bd ed]
  have h := bblFold_flatten env fstart fend bd ed
    ((chunks.map (fun c => env.heads c.1 c.2)).flatten) ([], [])
  simp only [List.flatten_nil, List.nil_append] at h
  split
  · rw [List.flatten_append]
    simpa using h
  · rename_i hlen
    have h2 : (((chunks.map (fun c => env.heads c.1 c.2)).flatten).foldl
        (bblStep env fstart fend bd ed) ([], [])).2 = [] := by
      simp only [not_lt, Nat.le_zero, List.length_eq_zero] at hlen
      exact hlen
    rw [h2, List.append_nil] at h
    exact h

/-- A list of lists whose flattening mentions `a` exactly once has exactly
one member list containing `a`. -/
theorem countP_mem_of_flatten_count {l : List (List Nat)} {a : Nat}
    (h : l.flatten.count a = 1) : l.countP (fun bl => decide (a ∈ bl)) = 1 := by
  induction l with
  | nil => simp at h
  | cons b t ih =>
    rw [List.flatten_cons, List.count_append] at h
    rw [List.countP_cons]
    rcases Nat.eq_zero_or_pos (b.count a) with hb | hb
    · have hnb : a ∉ b := by
        intro hmem
        rw [List.count_eq_zero] at hb
        exact hb hmem
      rw [hb, Nat.zero_add] at h
      simp [ih h, hnb]
    · have hmemb : a ∈ b := List.count_pos_iff.mp hb
      have hflat : t.flatten.count a = 0 := by omega
      have hnt : ∀ bl ∈ t, a ∉ bl := by
        intro bl hbl hmem
        have : a ∈ t.flatten := List.mem_flatten.mpr ⟨bl, hbl, hmem⟩
        rw [← List.count_pos_iff] at this
        omega
      have hcnt : t.countP (fun bl => decide (a ∈ bl)) = 0 := by
        rw [List.countP_eq_zero]
        intro bl hbl
        simpa using hnt bl hbl
      simp [hcnt, hmemb]

/-- C2: for every routine, the basic-block partitioner produces blocks whose
instruction sequences form a disjoint cover of the routine's instruction
stream: their concatenation is exactly the stream, and when the stream has
no duplicate addresses every instruction address lies in exactly one
block. -/
theorem bbls_disjoint_cover (env : Env) (fstart fend : Nat)
    (chunks : List (Nat × Nat)) (bd : List Nat) (ed : List (Nat × Nat))
    (hnd : (routineHeads env chunks).Nodup) :
    (get_bbls env fstart fend chunks bd ed).flatten = routineHeads env chunks ∧
    ∀ a ∈ routineHeads env chunks,
      (get_bbls env fstart fend chunks bd ed).countP (fun bl => decide (a ∈ bl)) = 1 := by
  refine ⟨get_bbls_flatten env fstart fend chunks bd ed, ?_⟩
  intro a ha
  apply countP_mem_of_flatten_count
  rw [get_bbls_flatten env fstart fend chunks bd ed]
  have h1 : 0 < (routineHeads env chunks).count a := List.count_pos_iff.mpr ha
  have h2 : (routineHeads env chunks).count a ≤ 1 :=
    List.nodup_iff_count_le_one.mp hnd a
  omega

/-- Witness for C2: the one-instruction routine of `envW1` is covered by the
single block `[10]`. -/
theorem bbls_disjoint_cover_witness :
    (get_bbls envW1 10 12 [(10, 12)] [10] []).flatten = routineHeads envW1 [(10, 12)] ∧
    ∀ a ∈ routineHeads envW1 [(10, 12)],
      (get_bbls envW1 10 12 [(10, 12)] [10] []).countP (fun bl => decide (a ∈ bl)) = 1 :=
  bbls_disjoint_cover envW1 10 12 [(10, 12)] [10] [] (by decide)

end BblCover

/-- C1: for every analyzed routine, when the cyclomatic-complexity metric is
selected, the computed CC equals the number of elements of the routine-level
edge set minus the number of elements of the routine-level boundary set,
plus 2. -/
theorem cc_formula_of_selected (env : Env) (function_ea : Nat) (mask : Mask)
    (b : BState) (hm : mask.cc = true) :
    ((computeMetrics env function_ea mask b).1).CC =
      (b.edges.length : Int) - (b.boundaries.length : Int) + 2 :=
  computeMetrics_CC env function_ea mask b hm

/-- Witness for C1: the one-instruction routine of `envW1` has no edges and
the single boundary `10`, so its CC is `0 - 1 + 2 = 1`. -/
theorem cc_formula_of_selected_witness :
    ((computeMetrics envW1 10 { cc := true } ((runBuilder envW1 10 []).1)).1).CC = 1 := by
  rw [cc_formula_of_selected envW1 10 { cc := true } ((runBuilder envW1 10 []).1) rfl]
  decide

section HalsteadClaims

/-- C5 counterexample: with zero distinct operators and operands (as in the
module-total Halstead record of a module with no analyzable routine), the
volume computation `N * math.log(n, 2)` sits outside the `try` guard, so the
arithmetic domain error escapes `calculate` instead of leaving the value at
its zero default. -/
theorem halstead_error_propagates_cex :
    (Hal.calculate defEnv {}).2 = some "ValueError: math domain error" := by
  decide

/-- C5 amended: as long as at least one operator or operand was counted
(`n1 + n2 ≠ 0`, which holds at the per-routine call site because `calculate`
is only invoked for a nonempty operand table), no exception leaves the
Halstead computation — the `Ni` domain error is caught in place — and the
difficulty `D` keeps its zero default exactly when `n2 = 0`. -/
theorem halstead_guarded_calculate (env : Env) (h : Hal)
    (hn : h.n1 + h.n2 ≠ 0) :
    (Hal.calculate env h).2 = none ∧
      (h.n2 = 0 → ((Hal.calculate env h).1).D = h.D) := by
  by_cases h1 : h.n1 = 0 <;> by_cases h2 : h.n2 = 0
  · exact absurd (by rw [h1, h2]) hn
  · constructor
    · simp [Hal.calculate, pyLogNat, h1, h2, hn]
    · intro hz; exact absurd hz h2
  · constructor
    · simp [Hal.calculate, pyLogNat, h1, h2, hn]
    · intro hz; simp [Hal.calculate, pyLogNat, h1, h2, hn]
  · constructor
    · simp [Hal.calculate, pyLogNat, h1, h2, hn]
    · intro hz; exact absurd hz h2

/-- Witness for the amended C5: one distinct operator, no operands: the
computation succeeds and `D` stays 0. -/
theorem halstead_guarded_calculate_witness :
    (Hal.calculate defEnv { n1 := 1 }).2 = none ∧
      ((Hal.calculate defEnv { n1 := 1 }).1).D = 0 := by
  have h := halstead_guarded_calculate defEnv { n1 := 1 } (by decide)
  exact ⟨h.1, by rw [h.2 rfl]⟩

end HalsteadClaims

section DictLemmas

/-- `dget` on a cons cell. -/
theorem dget_cons {κ α : Type} [DecidableEq κ] (p : κ × α) (t : List (κ × α))
    (k : κ) : dget (p :: t) k = if p.1 = k then some p.2 else dget t k := by
  unfold dget
  by_cases h : p.1 = k <;> simp [List.find?, h]

/-- A dict lookup succeeds exactly on the recorded keys. -/
theorem dget_isSome_iff {κ α : Type} [DecidableEq κ] :
    ∀ (d : List (κ × α)) (k : κ), (dget d k).isSome = true ↔ k ∈ dkeys d := by
  intro d
  induction d with
  | nil => intro k; simp [dget, dkeys]
  | cons p t ih =>
    intro k
    rw [dget_cons]
    by_cases h : p.1 = k
    · simp [h, dkeys]
    · simp only [if_neg h, dkeys, List.map_cons, List.mem_cons]
      rw [ih k]
      constructor
      · intro hk; exact Or.inr hk
      · rintro (he | hk)
        · exact absurd he.symm h
        · exact hk

/-- With duplicate-free keys, lookup returns the stored value. -/
theorem dget_of_mem_nodup {κ α : Type} [DecidableEq κ] :
    ∀ {d : List (κ × α)} {k : κ} {v : α},
      (dkeys d).Nodup → (k, v) ∈ d → dget d k = some v := by
  intro d
  induction d with
  | nil => intro k v _ hm; simp at hm
  | cons p t ih =>
    intro k v hnd hm
    have hnd' := hnd
    rw [dkeys, List.map_cons, List.nodup_cons] at hnd'
    rcases List.mem_cons.mp hm with rfl | hm'
    · rw [dget_cons, if_pos rfl]
    · have hk : k ∈ dkeys t := List.mem_map.mpr ⟨(k, v), hm', rfl⟩
      have hne : p.1 ≠ k := fun he => hnd'.1 (he ▸ hk)
      rw [dget_cons, if_neg hne]
      exact ih hnd'.2 hm'

/-- Deleting a key leaves only other recorded keys. -/
theorem dkeys_ddel_subset {κ α : Type} [DecidableEq κ] (d : List (κ × α))
    (k : κ) : ∀ x ∈ dkeys (ddel d k), x ∈ dkeys d ∧ x ≠ k := by
  intro x hx
  unfold ddel at hx
  split at hx
  · rcases List.mem_map.mp hx with ⟨p, hp, rfl⟩
    have hf := List.mem_filter.mp hp
    refine ⟨List.mem_map.mpr ⟨p, hf.1, rfl⟩, ?_⟩
    simpa using hf.2
  · rename_i hnone
    refine ⟨hx, ?_⟩
    rintro rfl
    exact hnone ((dget_isSome_iff d x).mpr hx)

/-- Deleting every key of `ds` from `d` leaves only keys of `d` outside
`ds`. -/
theorem dkeys_foldl_ddel {κ α β : Type} [DecidableEq κ] :
    ∀ (ds : List (κ × β)) (d : List (κ × α)) (x : κ),
      x ∈ dkeys (ds.foldl (fun lv q => ddel lv q.1) d) →
      x ∈ dkeys d ∧ x ∉ dkeys ds := by
  intro ds
  induction ds with
  | nil => intro d x hx; exact ⟨hx, by simp [dkeys]⟩
  | cons q t ih =>
    intro d x hx
    rw [List.foldl_cons] at hx
    obtain ⟨hx1, hx2⟩ := ih (ddel d q.1) x hx
    obtain ⟨hx3, hx4⟩ := dkeys_ddel_subset d q.1 x hx1
    refine ⟨hx3, ?_⟩
    intro hmem
    rw [dkeys, List.map_cons] at hmem
    rcases List.mem_cons.mp hmem with he | hm
    · exact hx4 he
    · exact hx2 hm

/-- Congruence for folds whose bodies agree on the list's members. -/
theorem foldl_congr_mem {α β : Type} {f g : β → α → β} :
    ∀ {l : List α}, (∀ a ∈ l, ∀ acc, f acc a = g acc a) →
      ∀ init, l.foldl f init = l.foldl g init := by
  intro l
  induction l with
  | nil => intro _ _; rfl
  | cons a t ih =>
    intro h init
    rw [List.foldl_cons, List.foldl_cons, h a (List.mem_cons_self a t)]
    exact ih (fun x hx acc => h x (List.mem_cons_of_mem a hx) acc) _

end DictLemmas

section BoundaryValueClaims

/-- C6 counterexample: in the two-node graph `1 → 2` with terminal node `2`
the code skips the terminal node entirely (it contributes 0, not the claimed
1): the computed metric is `1 - 1 = 0` while the claimed formula gives
`1 + 1 - 1 = 1`. -/
theorem boundary_value_terminal_cex :
    get_boundary_value_metric ngC6 false = 0 ∧
      boundary_value_claim ngC6 = 1 := by decide

/-- C6 amended: over any node graph with duplicate-free keys (as `make_graph`
produces), the boundary-value metric is the claimed sum with the one
correction that a terminal node (stored with no successor list) contributes
nothing rather than 1; nodes with at least 2 successors contribute their
reachable-subgraph count from a fresh per-node traversal, other non-terminal
nodes contribute 1, and the total is decremented by exactly 1. -/
theorem boundary_value_formula (ng : NodeGraph) (hnd : (dkeys ng).Nodup) :
    get_boundary_value_metric ng false = boundary_value_spec_amended ng := by
  unfold get_boundary_value_metric boundary_value_spec_amended
  simp only [Bool.false_eq_true, if_false, not_false_eq_true, if_true]
  apply congrArg (fun z : Int => z - 1)
  apply foldl_congr_mem
  intro p hp acc
  have hg : dget ng p.1 = some p.2 := dget_of_mem_nodup hnd (by simpa using hp)
  unfold ngGet
  rw [hg]
  rcases p with ⟨k, v⟩
  cases v <;> rfl

/-- Witness for the amended C6: the two theorems agree on `ngC6`. -/
theorem boundary_value_formula_witness :
    get_boundary_value_metric ngC6 false = boundary_value_spec_amended ngC6 :=
  boundary_value_formula ngC6 (by decide)

end BoundaryValueClaims

section ChepinClaims

/-- A successful `cdeclLoop` returns the argument dictionary it was given. -/
theorem cdeclLoop_dict (env : Env) :
    ∀ (refs : List Nat) (d : List (String × List Nat)) (p : ℚ)
      (ad : List (String × List Nat)),
      cdeclLoop env refs d = .ok (p, ad) → ad = d := by
  intro refs
  induction refs with
  | nil =>
    intro d p ad h
    simp only [cdeclLoop, Except.ok.injEq, Prod.mk.injEq] at h
    exact h.2.symm
  | cons r t ih =>
    intro d p ad h
    unfold cdeclLoop at h
    dsimp only at h
    repeat' split at h
    all_goals
      first
      | (simp only [Except.ok.injEq, Prod.mk.injEq] at h; exact h.2.symm)
      | exact ih _ _ _ h
      | simp at h

/-- A successful `get_function_args_count` always returns the primary-scan
dictionary (the stdcall/cdecl fallbacks only change the count, and they run
only when that dictionary is empty). -/
theorem get_function_args_count_dict (env : Env) (function_ea : Nat)
    (lv : List (String × List Nat)) (p : ℚ) (ad : List (String × List Nat))
    (h : get_function_args_count env function_ea lv = .ok (p, ad)) :
    ad = args_primary_scan env lv := by
  unfold get_function_args_count at h
  dsimp only at h
  repeat' split at h
  all_goals
    first
    | (simp only [Except.ok.injEq, Prod.mk.injEq] at h; exact h.2.symm)
    | exact cdeclLoop_dict env _ _ _ _ h
    | simp at h

/-- C7 counterexample: in `env7`, variable `arg_0` is detected as an
argument (category P) *and* used in a `cmp` (category C); the Chepin
computation counts it in both the `P` and the `3C` terms, while only
`loc_8` survives into M. -/
theorem chepin_double_count_cex :
    get_function_args_count env7 200 lv7 = .ok (1, [("arg_0", [500])]) ∧
    chepin_tmp_dict env7 lv7 = [("arg_0", [500])] ∧
    "arg_0" ∈ dkeys [("arg_0", [500])] ∧
    (get_chepin env7 200 lv7).toOption.map (fun r => r.2) =
      some [("loc_8", [502])] := by decide

/-- C7 amended: the destructive deletes do guarantee that the M category
(the local variables surviving into the `2M` term) is disjoint from both the
argument category P and the comparison category C; only P and C can
overlap. -/
theorem chepin_m_disjoint (env : Env) (function_ea : Nat)
    (lv lv2 : List (String × List Nat))
    (hok : (get_chepin env function_ea lv).toOption.map (fun r => r.2) =
      some lv2) :
    ∀ x ∈ dkeys lv2,
      x ∉ dkeys (args_primary_scan env lv) ∧
      x ∉ dkeys (chepin_tmp_dict env lv) := by
  unfold get_chepin at hok
  rcases hargs : get_function_args_count env function_ea lv with e | pr
  · rw [hargs] at hok
    simp [Except.toOption] at hok
  · rw [hargs] at hok
    have hok2 : (chepin_tmp_dict env lv).foldl (fun lv q => ddel lv q.1)
        (pr.2.foldl (fun lv q => ddel lv q.1) lv) = lv2 := by
      simpa [Except.toOption] using hok
    intro x hx
    rw [← hok2] at hx
    obtain ⟨hx1, hxc⟩ := dkeys_foldl_ddel (chepin_tmp_dict env lv) _ x hx
    obtain ⟨hx2, hxp⟩ := dkeys_foldl_ddel pr.2 lv x hx1
    refine ⟨?_, hxc⟩
    rw [← get_function_args_count_dict env function_ea lv pr.1 pr.2 (by rw [hargs])]
    exact hxp

/-- Witness for the amended C7: `loc_8` survives into M in `env7` and indeed
belongs to neither the argument nor the comparison category. -/
theorem chepin_m_disjoint_witness :
    "loc_8" ∉ dkeys (args_primary_scan env7 lv7) ∧
    "loc_8" ∉ dkeys (chepin_tmp_dict env7 lv7) :=
  chepin_m_disjoint env7 200 lv7 [("loc_8", [502])] (by decide)
    "loc_8" (by decide)

end ChepinClaims

section OviedoClaims

/-- C8 counterexample: variable `v` of `env8` has two recorded uses, both
writes; the code decrements once per write-usage (DF = 2 - 2 = 0) while the
claim decrements at most once, for a write-first variable (DF = 2 - 1 = 1). -/
theorem oviedo_multi_decrement_cex :
    get_oviedo_df env8 lv8 = 0 ∧ oviedo_df_claim env8 lv8 = 1 := by decide

/-- Subtracting one per satisfying element of a fold is subtracting the
count. -/
theorem foldl_dec_count (p : Nat → Bool) :
    ∀ (l : List Nat) (acc : Int),
      l.foldl (fun a x => if p x then a - 1 else a) acc =
        acc - (l.countP p : Int) := by
  intro l
  induction l with
  | nil => intro acc; simp
  | cons x t ih =>
    intro acc
    rw [List.foldl_cons, List.countP_cons]
    by_cases hx : p x
    · rw [if_pos hx, ih]
      simp only [hx, if_true]
      push_cast
      ring
    · rw [if_neg hx, ih]
      simp only [hx, if_false]
      push_cast
      ring

/-- The per-variable Oviedo term is the reference count minus the number of
write-usages. -/
theorem get_oviedo_df_eq_amended (env : Env) (lv : List (String × List Nat)) :
    get_oviedo_df env lv = oviedo_df_amended env lv := by
  unfold get_oviedo_df oviedo_df_amended
  apply foldl_congr_mem
  intro q hq acc
  rw [foldl_dec_count (fun a => oviedo_write env q.1 a) q.2 0]
  push_cast
  ring

/-- Every metric step after `stepOviedo` leaves `Oviedo` untouched. -/
theorem metricSteps_keeps_Oviedo (env : Env) (function_ea : Nat) (mask : Mask) :
    ∀ s ∈ [stepChepin env function_ea mask,
           stepHC env function_ea (env.findFuncEnd function_ea) function_ea mask,
           mpure (stepCS mask),
           mpure stepClear], ∀ fr : FnRec, (s fr).1.Oviedo = fr.Oviedo := by
  intro s hs fr
  simp only [List.mem_cons, List.not_mem_nil, or_false] at hs
  rcases hs with rfl | rfl | rfl | rfl
  · exact (stepChepin_keeps env function_ea mask fr).2.2.2.1
  · exact (stepHC_keeps env _ _ _ mask fr).2.2
  · exact (stepCS_keeps mask fr).2.2.1
  · exact (stepClear_keeps fr).2.1

/-- C8 amended: the Oviedo metric is the edge count plus, per local
variable, its total reference count minus one for *every* reference that is
a first-operand `mov` write — not at most one, and not tied to the first
recorded use. -/
theorem oviedo_formula (env : Env) (function_ea : Nat) (mask : Mask)
    (b : BState) (hm : mask.oviedo = true)
    (hok : (computeMetrics env function_ea mask b).2 = none) :
    ((computeMetrics env function_ea mask b).1).Oviedo =
      (b.edges.length : Int) + get_oviedo_df env b.vars_local ∧
    get_oviedo_df env b.vars_local = oviedo_df_amended env b.vars_local := by
  refine ⟨?_, get_oviedo_df_eq_amended env b.vars_local⟩
  unfold computeMetrics metricSteps at hok ⊢
  dsimp only at hok ⊢
  rw [runChain_cons_ok (mpure_snd _ _)] at hok ⊢
  rw [runChain_cons_ok (mpure_snd _ _)] at hok ⊢
  rw [runChain_cons_ok (mpure_snd _ _)] at hok ⊢
  rw [runChain_cons_ok (mpure_snd _ _)] at hok ⊢
  rw [runChain_cons_ok (mpure_snd _ _)] at hok ⊢
  have hg := runChain_cons_none hok
  rw [runChain_cons_ok hg] at hok ⊢
  have hh := runChain_cons_none hok
  rw [runChain_cons_ok hh] at hok ⊢
  rw [runChain_cons_ok (mpure_snd _ _)] at hok ⊢
  rw [runChain_cons_ok (mpure_snd _ _)] at hok ⊢
  rw [runChain_keeps FnRec.Oviedo _ (metricSteps_keeps_Oviedo env function_ea mask)]
  simp only [mpure_fst]
  show (stepOviedo env mask b _).Oviedo = _
  unfold stepOviedo
  rw [if_pos hm]
  simp only []
  congr 1
  rw [(stepSpan_keeps env function_ea (env.findFuncEnd function_ea) mask _).2.1,
      (stepHalstead_keeps env mask b _).2.1,
      (stepGraph_keeps mask b _ _).2.1,
      (stepABC_keeps env mask _).2.1,
      (stepJilb_keeps mask _).2.1,
      (stepR_keeps b _).2.1,
      (stepCC_keeps mask b _).1,
      (stepBblsBoundaries_keeps _ _).2.1]
  rfl

/-- Witness for the amended C8: the two-write routine of `env8` under the
Oviedo mask. -/
theorem oviedo_formula_witness :
    ((computeMetrics env8 600 { oviedo := true } ((runBuilder env8 600 []).1)).1).Oviedo =
      ((((runBuilder env8 600 []).1).edges.length : Int) +
        get_oviedo_df env8 ((runBuilder env8 600 []).1).vars_local) ∧
    get_oviedo_df env8 ((runBuilder env8 600 []).1).vars_local =
      oviedo_df_amended env8 ((runBuilder env8 600 []).1).vars_local :=
  oviedo_formula env8 600 { oviedo := true } ((runBuilder env8 600 []).1)
    rfl (by decide)

end OviedoClaims

section CondBranchClaims

/-- The block-partition invariant behind the amended C4: a completed block
contains a conditional branch that is not itself a boundary only as its last
instruction, and the open block contains no such instruction at all. -/
def CondLastInv (env : Env) (fstart fend : Nat) (bd : List Nat)
    (acc : List (List Nat) × List Nat) : Prop :=
  (∀ bl ∈ acc.1, ∀ x ∈ bl,
    GetInstructionType env fstart fend x = .CONDITIONAL_BRANCH → x ∉ bd →
    bl.getLast? = some x) ∧
  (∀ x ∈ acc.2,
    ¬(GetInstructionType env fstart fend x = .CONDITIONAL_BRANCH ∧ x ∉ bd))

/-- One partitioner step preserves the invariant. -/
theorem bblStep_condLast (env : Env) (fstart fend : Nat) (bd : List Nat)
    (ed : List (Nat × Nat)) (acc : List (List Nat) × List Nat) (head : Nat)
    (hinv : CondLastInv env fstart fend bd acc) :
    CondLastInv env fstart fend bd (bblStep env fstart fend bd ed acc head) := by
  rcases acc with ⟨bbls, bbl⟩
  obtain ⟨h1, h2⟩ := hinv
  unfold bblStep
  dsimp only
  by_cases hb : head ∈ bd ∨ pyIntMemPairs head ed = true
  · rw [if_pos hb]
    have hbd : head ∈ bd := by
      rcases hb with h | h
      · exact h
      · exact absurd h (by simp [pyIntMemPairs, pyEqIntPair])
    by_cases hl : bbl.length > 0
    · rw [if_pos hl]
      constructor
      · intro bl hbl x hx hc hnb
        rcases List.mem_append.mp hbl with hbl' | hbl'
        · exact h1 bl hbl' x hx hc hnb
        · rw [List.mem_singleton] at hbl'
          subst hbl'
          exact absurd ⟨hc, hnb⟩ (h2 x hx)
      · intro x hx
        rw [List.mem_singleton] at hx
        subst hx
        rintro ⟨_, hnb⟩
        exact hnb hbd
    · rw [if_neg hl]
      refine ⟨h1, ?_⟩
      intro x hx
      rw [List.mem_singleton] at hx
      subst hx
      rintro ⟨_, hnb⟩
      exact hnb hbd
  · rw [if_neg hb]
    by_cases hc : GetInstructionType env fstart fend head = .CONDITIONAL_BRANCH
    · rw [if_pos hc]
      constructor
      · intro bl hbl x hx hcx hnb
        rcases List.mem_append.mp hbl with hbl' | hbl'
        · exact h1 bl hbl' x hx hcx hnb
        · rw [List.mem_singleton] at hbl'
          subst hbl'
          rcases List.mem_append.mp hx with hx' | hx'
          · exact absurd ⟨hcx, hnb⟩ (h2 x hx')
          · rw [List.mem_singleton] at hx'
            subst hx'
            simp
      · intro x hx
        simp at hx
    · rw [if_neg hc]
      refine ⟨h1, ?_⟩
      intro x hx
      rcases List.mem_append.mp hx with hx' | hx'
      · exact h2 x hx'
      · rw [List.mem_singleton] at hx'
        subst hx'
        rintro ⟨hcx, _⟩
        exact hc hcx

/-- The fold over any head stream preserves the invariant. -/
theorem bblFold_condLast (env : Env) (fstart fend : Nat) (bd : List Nat)
    (ed : List (Nat × Nat)) :
    ∀ (hs : List Nat) (acc : List (List Nat) × List Nat),
      CondLastInv env fstart fend bd acc →
      CondLastInv env fstart fend bd
        (hs.foldl (bblStep env fstart fend bd ed) acc) := by
  intro hs
  induction hs with
  | nil => intro acc h; exact h
  | cons hd tl ih =>
    intro acc h
    exact ih _ (bblStep_condLast env fstart fend bd ed acc hd h)

/-- C4 counterexample: in `env4` the first instruction `100` is classified
as a conditional branch (its target `300` lies in the inclusive
`[function_start, function_end]` window of the classifier) while the
builder's chunk filter discards that same target, so no boundary follows it:
the partitioner emits the block `[100, 102]` in which the conditional branch
`100` is not the last instruction. -/
theorem cond_branch_not_last_cex :
    (runBuilder env4 100 []).2 = none ∧
    (runBuilder env4 100 []).1.boundaries = [100] ∧
    (runBuilder env4 100 []).1.edges = [] ∧
    get_bbls env4 100 (env4.findFuncEnd 100) (env4.funcChunks 100)
      ((runBuilder env4 100 []).1.boundaries)
      ((runBuilder env4 100 []).1.edges) = [[100, 102]] ∧
    GetInstructionType env4 100 (env4.findFuncEnd 100) 100 = .CONDITIONAL_BRANCH ∧
    (100 : Nat) ∈ ([100, 102] : List Nat) ∧
    ([100, 102] : List Nat).getLast? ≠ some 100 := by decide

/-- C4 amended: every instruction classified as a conditional branch that is
*not itself a boundary (or edge-set member)* is the last instruction of the
block that contains it; a conditional branch that starts a block (because
it is a boundary) need not be last. -/
theorem cond_branch_nonboundary_last (env : Env) (fstart fend : Nat)
    (chunks : List (Nat × Nat)) (bd : List Nat) (ed : List (Nat × Nat))
    (bl : List Nat) (x : Nat)
    (hbl : bl ∈ get_bbls env fstart fend chunks bd ed)
    (hx : x ∈ bl)
    (hc : GetInstructionType env fstart fend x = .CONDITIONAL_BRANCH)
    (hnb : x ∉ bd) :
    bl.getLast? = some x := by
  unfold get_bbls at hbl
  dsimp only at hbl
  rw [foldl_chunks_flatten env fstart fend bd ed] at hbl
  have hinv := bblFold_condLast env fstart fend bd ed
    ((chunks.map (fun c => env.heads c.1 c.2)).flatten) ([], [])
    ⟨by intro bl h; simp at h, by intro y h; simp at h⟩
  split at hbl
  · rcases List.mem_append.mp hbl with hbl' | hbl'
    · exact hinv.1 bl hbl' x hx hc hnb
    · rw [List.mem_singleton] at hbl'
      subst hbl'
      exact absurd ⟨hc, hnb⟩ (hinv.2 x hx)
  · exact hinv.1 bl hbl x hx hc hnb

/-- Witness for the amended C4: in `env4b` the conditional branch `102` is
not a boundary and closes its block `[100, 102]` as its last instruction. -/
theorem cond_branch_nonboundary_last_witness :
    ([100, 102] : List Nat).getLast? = some 102 :=
  cond_branch_nonboundary_last env4b 100 (env4b.findFuncEnd 100)
    (env4b.funcChunks 100) ((runBuilder env4b 100 []).1.boundaries)
    ((runBuilder env4b 100 []).1.edges) [100, 102] 102
    (by decide) (by decide) (by decide) (by decide)

end CondBranchClaims

section SingleBlockClaims

/-- A set-insert never yields the empty list. -/
theorem sadd_ne_nil {α : Type} [DecidableEq α] (l : List α) (a : α) :
    sadd l a ≠ [] := by
  unfold sadd
  split
  · rename_i h
    exact List.ne_nil_of_mem h
  · simp

/-- Each edge-loop iteration ends with a set-insert into the edge list. -/
theorem edgeStep_ne_nil (env : Env) (chunk : Nat × Nat) (head : Nat)
    (st : BState) (r : Nat) : (edgeStep env chunk head st r).edges ≠ [] := by
  unfold edgeStep
  dsimp only
  repeat' split
  all_goals exact sadd_ne_nil _ _

/-- Folding the edge loop over a nonempty reference list leaves a nonempty
edge list. -/
theorem edgeFold_ne_nil (env : Env) (chunk : Nat × Nat) (head : Nat) :
    ∀ (l : List Nat) (st : BState), l ≠ [] →
      ((l.foldl (edgeStep env chunk head) st).edges) ≠ [] := by
  intro l
  induction l with
  | nil => intro st h; exact absurd rfl h
  | cons a t ih =>
    intro st _
    rw [List.foldl_cons]
    cases t with
    | nil => exact edgeStep_ne_nil env chunk head st a
    | cons b u => exact ih _ (by simp)

/-- `headRefs` with a nonempty kept-reference list produces edges. -/
theorem headRefs_edges_ne_nil (env : Env) (chunk : Nat × Nat) (head : Nat)
    (refs0 : List Nat) (st : BState) (h : refs0 ≠ []) :
    (headRefs env chunk head refs0 st).edges ≠ [] := by
  unfold headRefs
  dsimp only
  apply edgeFold_ne_nil
  split
  · exact sadd_ne_nil _ _
  · exact h

/-- The counter block never touches the edge or boundary sets. -/
theorem headCounters_keeps (env : Env) (head : Nat) (it : InType)
    (st : BState) :
    ((headCounters env head it st).1).edges = st.edges ∧
    ((headCounters env head it st).1).boundaries = st.boundaries := by
  unfold headCounters
  dsimp only
  repeat' split
  all_goals exact ⟨rfl, rfl⟩

/-- One operand's bookkeeping never touches the edge or boundary sets. -/
theorem headOperand_keeps (env : Env) (head : Nat) (st : BState)
    (q : Nat × String × Int) :
    (headOperand env head st q).edges = st.edges ∧
    (headOperand env head st q).boundaries = st.boundaries := by
  unfold headOperand
  dsimp only
  repeat' split
  all_goals exact ⟨rfl, rfl⟩

/-- Folding the operand bookkeeping never touches the edge or boundary
sets. -/
theorem headOperand_fold_keeps (env : Env) (head : Nat) :
    ∀ (l : List (Nat × String × Int)) (st : BState),
      (l.foldl (headOperand env head) st).edges = st.edges ∧
      (l.foldl (headOperand env head) st).boundaries = st.boundaries := by
  intro l
  induction l with
  | nil => intro st; exact ⟨rfl, rfl⟩
  | cons a t ih =>
    intro st
    rw [List.foldl_cons]
    obtain ⟨h1, h2⟩ := ih (headOperand env head st a)
    obtain ⟨h3, h4⟩ := headOperand_keeps env head st a
    exact ⟨h1.trans h3, h2.trans h4⟩

/-- The table block never touches the edge or boundary sets. -/
theorem headTables_keeps (env : Env) (head : Nat) (it : InType) (st : BState) :
    (headTables env head it st).edges = st.edges ∧
    (headTables env head it st).boundaries = st.boundaries := by
  unfold headTables
  dsimp only
  constructor
  · split
    · exact ((headOperand_fold_keeps env head _ _).1).trans
        (by repeat' split
            all_goals rfl)
    · repeat' split
      all_goals rfl
  · split
    · exact ((headOperand_fold_keeps env head _ _).2).trans
        (by repeat' split
            all_goals rfl)
    · repeat' split
      all_goals rfl

/-- One walk step either leaves the edge and boundary sets untouched, or
produces a nonempty edge set. -/
theorem processHead_cases (env : Env) (fstart fend : Nat)
    (chunks : List (Nat × Nat)) (chunk : Nat × Nat) (st : BState)
    (head : Nat) :
    (((processHead env fstart fend chunks chunk st head).1).edges = st.edges ∧
     ((processHead env fstart fend chunks chunk st head).1).boundaries = st.boundaries) ∨
    ((processHead env fstart fend chunks chunk st head).1).edges ≠ [] := by
  unfold processHead
  dsimp only
  split
  · left; exact ⟨rfl, rfl⟩
  · split
    · left; exact ⟨rfl, rfl⟩
    · split
      · left; exact ⟨rfl, rfl⟩
      · split
        · rename_i stc ec heq
          left
          have hk := headCounters_keeps env head
            (GetInstructionType env fstart fend head) { st with loc_count := st.loc_count + 1 }
          rw [heq] at hk
          exact hk
        · rename_i stc heq
          have hk := headCounters_keeps env head
            (GetInstructionType env fstart fend head) { st with loc_count := st.loc_count + 1 }
          rw [heq] at hk
          have ht := headTables_keeps env head
            (GetInstructionType env fstart fend head) stc
          split
          · rename_i hrefs
            right
            exact headRefs_edges_ne_nil env chunk head _ _ hrefs
          · left
            exact ⟨ht.1.trans hk.1, ht.2.trans hk.2⟩

/-- The invariant: with an empty edge set the boundary set is still the
seed. -/
def EdgesNilInv (f0 : Nat) (acc : BState × Option String) : Prop :=
  acc.1.edges = [] → acc.1.boundaries = [f0]

/-- One stop-fold step preserves `EdgesNilInv`. -/
theorem stopFoldStep_edges_nil (env : Env) (fstart fend : Nat)
    (chunks : List (Nat × Nat)) (chunk : Nat × Nat) (f0 : Nat)
    (acc : BState × Option String) (a : Nat) (h : EdgesNilInv f0 acc) :
    EdgesNilInv f0 (match acc.2 with
      | some _ => acc
      | none => processHead env fstart fend chunks chunk acc.1 a) := by
  cases hsnd : acc.2 with
  | some e => simpa [hsnd] using h
  | none =>
    simp only [hsnd]
    intro hedges
    rcases processHead_cases env fstart fend chunks chunk acc.1 a with ⟨h1, h2⟩ | hne
    · rw [h2]
      exact h (by rw [← h1]; exact hedges)
    · exact absurd hedges hne

/-- The stop-fold over any head stream preserves `EdgesNilInv`. -/
theorem stopFold_edges_nil (env : Env) (fstart fend : Nat)
    (chunks : List (Nat × Nat)) (chunk : Nat × Nat) (f0 : Nat) :
    ∀ (hs : List Nat) (acc : BState × Option String), EdgesNilInv f0 acc →
      EdgesNilInv f0 (stopFold (processHead env fstart fend chunks chunk) acc hs) := by
  intro hs
  induction hs with
  | nil => intro acc h; exact h
  | cons a t ih =>
    intro acc h
    unfold stopFold
    rw [List.foldl_cons]
    exact ih _ (stopFoldStep_edges_nil env fstart fend chunks chunk f0 acc a h)

/-- If the builder produced no edges, the boundary set is still exactly the
seeded routine entry. -/
theorem runBuilder_edges_nil (env : Env) (function_ea : Nat)
    (gd : List (String × Nat))
    (h : ((runBuilder env function_ea gd).1).edges = []) :
    ((runBuilder env function_ea gd).1).boundaries = [function_ea] := by
  unfold runBuilder at h ⊢
  dsimp only at h ⊢
  have main : ∀ (cs : List (Nat × Nat)) (acc : BState × Option String),
      EdgesNilInv function_ea acc →
      EdgesNilInv function_ea (cs.foldl (fun acc chunk =>
        match acc.2 with
        | some _ => acc
        | none => stopFold (processHead env function_ea
            (env.findFuncEnd function_ea) (env.funcChunks function_ea) chunk)
            acc (env.heads chunk.1 chunk.2)) acc) := by
    intro cs
    induction cs with
    | nil => intro acc hacc; exact hacc
    | cons c t ih =>
      intro acc hacc
      rw [List.foldl_cons]
      apply ih
      cases hsnd : acc.2 with
      | some e => simpa [hsnd] using hacc
      | none =>
        simp only [hsnd]
        exact stopFold_edges_nil env function_ea (env.findFuncEnd function_ea)
          (env.funcChunks function_ea) c function_ea _ acc hacc
  exact main (env.funcChunks function_ea) _ (fun _ => rfl) h

/-- Folding the partitioner over heads that are neither boundaries nor
conditional branches just extends the open block. -/
theorem bblFold_extend (env : Env) (fstart fend : Nat) (bd : List Nat)
    (ed : List (Nat × Nat)) :
    ∀ (hs : List Nat) (bbls : List (List Nat)) (cur : List Nat),
      (∀ h ∈ hs, h ∉ bd ∧
        GetInstructionType env fstart fend h ≠ .CONDITIONAL_BRANCH) →
      hs.foldl (bblStep env fstart fend bd ed) (bbls, cur) = (bbls, cur ++ hs) := by
  intro hs
  induction hs with
  | nil => intro bbls cur _; simp
  | cons a t ih =>
    intro bbls cur hall
    rw [List.foldl_cons]
    have ha := hall a (List.mem_cons_self a t)
    have hcond : ¬(a ∈ bd ∨ pyIntMemPairs a ed = true) := by
      push_neg
      exact ⟨ha.1, by simp [pyIntMemPairs, pyEqIntPair]⟩
    have hstep : bblStep env fstart fend bd ed (bbls, cur) a = (bbls, cur ++ [a]) := by
      unfold bblStep
      dsimp only
      rw [if_neg hcond, if_neg ha.2]
    rw [hstep, ih _ _ (fun x hx => hall x (List.mem_cons_of_mem a hx))]
    simp

/-- The node graph of an edgeless single-block routine: the single root node
with no successors. -/
theorem make_graph_single (function_ea : Nat) (rest : List Nat) :
    make_graph [] [function_ea :: rest] [function_ea] =
      .ok [(function_ea, none)] := by
  obtain ⟨l, hl⟩ : ∃ l, (function_ea :: rest).getLast? = some l := by
    rcases hgl : (function_ea :: rest).getLast? with _ | l
    · exact absurd hgl (by simp)
    · exact ⟨l, rfl⟩
  have hdget : dget [(function_ea, (none : Option (List Nat)))] function_ea =
      some none := by
    unfold dget
    rw [List.find?_cons_of_pos _ (by simp)]
    rfl
  have hdset : dset [(function_ea, (none : Option (List Nat)))] function_ea
      (none : Option (List Nat)) = [(function_ea, none)] := by
    unfold dset
    rw [hdget]
    simp
  unfold make_graph
  simp [Bind.bind, Except.bind, Pure.pure, Except.pure, hl, hdget, hdset,
    List.foldlM_nil, List.foldlM_cons]

/-- C3: for a routine whose control-flow builder output has zero edges and
whose instructions contain no conditional branch (a single-block routine),
the boundary set is exactly the routine entry, the partitioner returns the
single block of all instructions, the node graph is the single entry node
with no successors, and when the cyclomatic-complexity metric is selected
the computed CC is 1. -/
theorem single_block_routine_analysis (env : Env) (function_ea : Nat)
    (mask : Mask) (gd : List (String × Nat)) (rest : List Nat)
    (hheads : routineHeads env (env.funcChunks function_ea) = function_ea :: rest)
    (hnodup : function_ea ∉ rest)
    (hnocond : ∀ h ∈ function_ea :: rest,
      GetInstructionType env function_ea (env.findFuncEnd function_ea) h ≠
        .CONDITIONAL_BRANCH)
    (hedges : ((runBuilder env function_ea gd).1).edges = [])
    (hm : mask.cc = true) :
    ((runBuilder env function_ea gd).1).boundaries = [function_ea] ∧
    get_bbls env function_ea (env.findFuncEnd function_ea)
      (env.funcChunks function_ea)
      ((runBuilder env function_ea gd).1).boundaries
      ((runBuilder env function_ea gd).1).edges = [function_ea :: rest] ∧
    make_graph ((runBuilder env function_ea gd).1).edges
      (get_bbls env function_ea (env.findFuncEnd function_ea)
        (env.funcChunks function_ea)
        ((runBuilder env function_ea gd).1).boundaries
        ((runBuilder env function_ea gd).1).edges)
      ((runBuilder env function_ea gd).1).boundaries =
      .ok [(function_ea, none)] ∧
    ((computeMetrics env function_ea mask
      ((runBuilder env function_ea gd).1)).1).CC = 1 := by
  have hbd := runBuilder_edges_nil env function_ea gd hedges
  have hbbls : get_bbls env function_ea (env.findFuncEnd function_ea)
      (env.funcChunks function_ea)
      ((runBuilder env function_ea gd).1).boundaries
      ((runBuilder env function_ea gd).1).edges = [function_ea :: rest] := by
    rw [hbd, hedges]
    unfold get_bbls
    dsimp only
    rw [foldl_chunks_flatten env function_ea (env.findFuncEnd function_ea)
      [function_ea] []]
    have hflat : ((env.funcChunks function_ea).map
        (fun c => env.heads c.1 c.2)).flatten = function_ea :: rest := hheads
    rw [hflat, List.foldl_cons]
    have hstep1 : bblStep env function_ea (env.findFuncEnd function_ea)
        [function_ea] [] ([], []) function_ea = ([], [function_ea]) := by
      unfold bblStep
      dsimp only
      rw [if_pos (Or.inl (List.mem_singleton.mpr rfl))]
      simp
    rw [hstep1]
    rw [bblFold_extend env function_ea (env.findFuncEnd function_ea)
      [function_ea] [] rest [] [function_ea] ?hall]
    · simp
    · intro x hx
      constructor
      · rw [List.mem_singleton]
        intro he
        exact hnodup (he ▸ hx)
      · exact hnocond x (List.mem_cons_of_mem _ hx)
  refine ⟨hbd, hbbls, ?_, ?_⟩
  · rw [hbbls, hedges, hbd]
    exact make_graph_single function_ea rest
  · rw [computeMetrics_CC env function_ea mask _ hm, hedges, hbd]
    norm_num

/-- Witness for C3: the one-instruction routine of `envW1`. -/
theorem single_block_routine_analysis_witness :
    ((runBuilder envW1 10 []).1).boundaries = [10] ∧
    get_bbls envW1 10 (envW1.findFuncEnd 10) (envW1.funcChunks 10)
      ((runBuilder envW1 10 []).1).boundaries
      ((runBuilder envW1 10 []).1).edges = [[10]] ∧
    make_graph ((runBuilder envW1 10 []).1).edges
      (get_bbls envW1 10 (envW1.findFuncEnd 10) (envW1.funcChunks 10)
        ((runBuilder envW1 10 []).1).boundaries
        ((runBuilder envW1 10 []).1).edges)
      ((runBuilder envW1 10 []).1).boundaries = .ok [(10, none)] ∧
    ((computeMetrics envW1 10 { cc := true } ((runBuilder envW1 10 []).1)).1).CC = 1 :=
  single_block_routine_analysis envW1 10 { cc := true } [] []
    (by decide) (by decide) (by decide) (by decide) rfl

end SingleBlockClaims

section ModuleErrorClaims

/-- C9 counterexample: in the one-routine module `envC9` the routine `f`
raises during building (its second head is `BADADDR`), so its totals are
never collected (`total_func_count = 0`) and module aggregation still
returns without error; but the partially built routine record stays in the
function table, the global-variable tally `gvar ↦ 2` recorded before the
raise persists in the module-wide dictionary, and the final global-access
pass therefore assigns the failed routine a ratio and totals it:
`global_vars_metric_total = 1`, not `0`. -/
theorem failed_routine_global_merge_cex :
    (runBuilder envC9 900 []).2.isSome = true ∧
    (moduleAnalyze envC9 maskC9).1.total_func_count = 0 ∧
    (moduleAnalyze envC9 maskC9).2 = none ∧
    (dget (moduleAnalyze envC9 maskC9).1.functions "f").isSome = true ∧
    (moduleAnalyze envC9 maskC9).1.gvars = [("gvar", 2)] ∧
    (moduleAnalyze envC9 maskC9).1.global_vars_metric_total = 1 := by
  refine ⟨by decide, by decide, by decide, by decide, by decide, ?_⟩
  have h : (moduleAnalyze envC9 maskC9).1.global_vars_metric_total =
      0 + ((1 : Nat) : ℚ) / ((1 : Nat) : ℚ) := rfl
  rw [h]
  norm_num

/-- C9 amended: when a routine's analysis raises (in the builder or in the
metric phase), none of the scalar module totals changes — restoring only
the function table and the module-wide global dictionary to their previous
values recovers the previous module state exactly.  (The routine record and
its global tallies themselves are *kept*, as the counterexample shows.) -/
theorem failed_routine_totals_unchanged (env : Env) (mask : Mask)
    (st : ModState) (ea : Nat)
    (hfail : ((runBuilder env ea st.gvars).2).isSome = true ∨
      ((runBuilder env ea st.gvars).2 = none ∧
        ((computeMetrics env ea mask (runBuilder env ea st.gvars).1).2).isSome = true)) :
    { moduleStep env mask st ea with
        functions := st.functions, gvars := st.gvars } = st := by
  unfold moduleStep
  dsimp only
  split
  · rfl
  · split
    · rfl
    · rename_i b heq
      split
      · rfl
      · rename_i r heq2
        exfalso
        rcases hfail with h | ⟨h1, h2⟩
        · rw [heq] at h
          simp at h
        · rw [heq] at h2
          dsimp only at h2
          rw [heq2] at h2
          simp at h2

/-- Witness for the amended C9: the failing routine of `envC9` leaves the
empty initial module state's totals untouched. -/
theorem failed_routine_totals_unchanged_witness :
    { moduleStep envC9 maskC9 {} 900 with
        functions := ({} : ModState).functions,
        gvars := ({} : ModState).gvars } = ({} : ModState) :=
  failed_routine_totals_unchanged envC9 maskC9 {} 900 (Or.inl (by decide))

end ModuleErrorClaims

section FrameEffectClaims

/-- The last two metric steps leave `CC` untouched. -/
theorem lastSteps_keep_CC (mask : Mask) :
    ∀ s ∈ [mpure (stepCS mask), mpure stepClear],
      ∀ fr : FnRec, (s fr).1.CC = fr.CC := by
  intro s hs fr
  simp only [List.mem_cons, List.not_mem_nil, or_false] at hs
  rcases hs with rfl | rfl
  · exact (stepCS_keeps mask fr).1
  · exact (stepClear_keeps fr).1

/-- The last two metric steps leave `HenrynCafura` untouched. -/
theorem lastSteps_keep_HC (mask : Mask) :
    ∀ s ∈ [mpure (stepCS mask), mpure stepClear],
      ∀ fr : FnRec, (s fr).1.HenrynCafura = fr.HenrynCafura := by
  intro s hs fr
  simp only [List.mem_cons, List.not_mem_nil, or_false] at hs
  rcases hs with rfl | rfl
  · exact (stepCS_keeps mask fr).2.2.2
  · exact (stepClear_keeps fr).2.2

/-- C10: computing Chepin destructively shrinks the routine's
local-variable table, and the subsequent Henry&Cafura computation runs over
the *reduced* table: whenever Chepin and Henry&Cafura are both selected and
the analysis succeeds, the resulting `HenrynCafura` value is exactly the
Henry&Cafura metric of the table `lv2` left behind by `get_chepin` (not of
the builder's original `vars_local`); concretely, on `env10` the same
builder output yields `HenrynCafura = 0` with Chepin selected and
`HenrynCafura = 1` without it. -/
theorem chepin_side_effect_on_hc (env : Env) (function_ea : Nat) (mask : Mask)
    (b : BState) (lv2 : List (String × List Nat))
    (hchep : mask.chepin = true)
    (hhc : mask.hc = true ∨ mask.cs = true)
    (hok : (computeMetrics env function_ea mask b).2 = none)
    (hch : (get_chepin env function_ea b.vars_local).toOption.map
      (fun r => r.2) = some lv2) :
    (∃ o, get_henryncafura_metric env function_ea
        (env.findFuncEnd function_ea) function_ea
        ((computeMetrics env function_ea mask b).1).CC
        b.calls_dict lv2 b.global_vars_used = .ok o ∧
      ((computeMetrics env function_ea mask b).1).HenrynCafura = o.value) ∧
    ((computeMetrics env10 800 mask10 ((runBuilder env10 800 []).1)).1).HenrynCafura ≠
      ((computeMetrics env10 800 mask10' ((runBuilder env10 800 []).1)).1).HenrynCafura := by
  refine ⟨?_, by decide⟩
  unfold computeMetrics metricSteps at hok ⊢
  dsimp only at hok ⊢
  rw [runChain_cons_ok (mpure_snd _ _)] at hok ⊢
  rw [runChain_cons_ok (mpure_snd _ _)] at hok ⊢
  rw [runChain_cons_ok (mpure_snd _ _)] at hok ⊢
  rw [runChain_cons_ok (mpure_snd _ _)] at hok ⊢
  rw [runChain_cons_ok (mpure_snd _ _)] at hok ⊢
  have hg := runChain_cons_none hok
  rw [runChain_cons_ok hg] at hok ⊢
  have hh := runChain_cons_none hok
  rw [runChain_cons_ok hh] at hok ⊢
  rw [runChain_cons_ok (mpure_snd _ _)] at hok ⊢
  rw [runChain_cons_ok (mpure_snd _ _)] at hok ⊢
  have hc10 := runChain_cons_none hok
  rw [runChain_cons_ok hc10] at hok ⊢
  have hc11 := runChain_cons_none hok
  rw [runChain_cons_ok hc11] at hok ⊢
  rw [runChain_keeps FnRec.CC _ (lastSteps_keep_CC mask),
      runChain_keeps FnRec.HenrynCafura _ (lastSteps_keep_HC mask)]
  simp only [mpure_fst] at hc10 hc11 ⊢
  dsimp only [stepChepin] at hc10 hc11 ⊢
  rw [if_pos hchep] at hc10 hc11 ⊢
  split at hc10
  · simp at hc10
  · rename_i pr heq
    rw [heq] at hc11
    dsimp only at hc11
    rw [(stepOviedo_keeps env mask b _).2.1,
        (stepSpan_keeps env _ _ mask _).2.1,
        (stepHalstead_keeps env mask b _).2.1,
        (stepGraph_keeps mask b _ _).2.1,
        (stepABC_keeps env mask _).2.1,
        (stepJilb_keeps mask _).2.1,
        (stepR_keeps b _).2.1,
        (stepCC_keeps mask b _).1,
        (stepBblsBoundaries_keeps _ _).2.1] at heq
    have heq' : get_chepin env function_ea b.vars_local = Except.ok pr := heq
    rw [heq'] at hch
    simp [Except.toOption] at hch
    rw [hch] at hc11 ⊢
    dsimp only [stepHC] at hc11 ⊢
    rw [if_pos hhc] at hc11 ⊢
    rw [(stepOviedo_keeps env mask b _).2.2.1,
        (stepSpan_keeps env _ _ mask _).2.2.1,
        (stepHalstead_keeps env mask b _).2.2.1,
        (stepGraph_keeps mask b _ _).2.2.1,
        (stepABC_keeps env mask _).2.2.1,
        (stepJilb_keeps mask _).2.2.1,
        (stepR_keeps b _).2.2.1,
        (stepCC_keeps mask b _).2.1,
        (stepBblsBoundaries_keeps _ _).2.2.1] at hc11 ⊢
    rw [(stepOviedo_keeps env mask b _).2.2.2.1,
        (stepSpan_keeps env _ _ mask _).2.2.2.1,
        (stepHalstead_keeps env mask b _).2.2.2.1,
        (stepGraph_keeps mask b _ _).2.2.2.1,
        (stepABC_keeps env mask _).2.2.2.1,
        (stepJilb_keeps mask _).2.2.2.1,
        (stepR_keeps b _).2.2.2.1,
        (stepCC_keeps mask b _).2.2.1,
        (stepBblsBoundaries_keeps _ _).2.2.2.1] at hc11 ⊢
    dsimp only [recOfBuild] at hc11 ⊢
    split at hc11
    · simp at hc11
    · rename_i o heq2
      dsimp only
      exact ⟨o, heq2, rfl⟩

/-- Witness for C10: the single-`mov` routine of `env10`, whose only local
`arg_0` is consumed by the Chepin argument detection, leaving the empty
table for Henry&Cafura. -/
theorem chepin_side_effect_on_hc_witness :
    (∃ o, get_henryncafura_metric env10 800 (env10.findFuncEnd 800) 800
        ((computeMetrics env10 800 mask10 ((runBuilder env10 800 []).1)).1).CC
        ((runBuilder env10 800 []).1).calls_dict []
        ((runBuilder env10 800 []).1).global_vars_used = .ok o ∧
      ((computeMetrics env10 800 mask10 ((runBuilder env10 800 []).1)).1).HenrynCafura = o.value) ∧
    ((computeMetrics env10 800 mask10 ((runBuilder env10 800 []).1)).1).HenrynCafura ≠
      ((computeMetrics env10 800 mask10' ((runBuilder env10 800 []).1)).1).HenrynCafura :=
  chepin_side_effect_on_hc env10 800 mask10 ((runBuilder env10 800 []).1) []
    rfl (Or.inl rfl) (by decide) (by decide)

end FrameEffectClaims

end IDAMetrics
